import Mathlib

/-!
Verification development for `src/extract.py` (class `Extract`).

The module is a small archive-extraction utility: a unique-directory namer
(`make_unique_directory_name`), a tar-family extractor (`tar`), a gzip
extractor (`gz`), a recursive tree walker (`walk_tree_and_extract`) and a
top-level dispatch (`extract`).

Shallow embedding conventions:

* Python `str` is modelled as `List Char` (`Str`).  All paths are POSIX
  path strings; the embedding assumes normalized strings (no empty
  components, no `.`/`..` components, no trailing slash), which is exactly
  the form `pathlib.Path.as_posix()` returns, so `Path(s).as_posix() = s`
  and the `Path` round trips in the source are identities here.
* The filesystem is explicit state (`SimFS`): a list of regular files with
  contents plus a list of directories.
* `try/except OSError` is modelled with an error type `PyError` recording
  whether the raised exception is an instance of `OSError`
  (`tarfile.ReadError` is not; `gzip.BadGzipFile` is an `OSError`).
* Fallible operations return `Except PyError` paired with the state they
  leave behind (Python exceptions do not roll back filesystem effects).
* Operating-system failures that the program cannot influence (permission
  denied, disk full, ...) are injected through an environment of fault
  oracles (`Env`); `envOk` is the fault-free environment.
-/

abbrev Str := List Char

/-- Split on the LAST occurrence of `ch`:
`splitLastOn ch s = some (before, after)` where `s = before ++ ch :: after`
and `ch ∉ after`; `none` when `ch ∉ s`. -/
def splitLastOn (ch : Char) : Str → Option (Str × Str)
  | [] => none
  | c :: cs =>
    match splitLastOn ch cs with
    | some (p, n) => some (c :: p, n)
    | none => if c = ch then some ([], cs) else none

/-- Model of `pathlib.PurePath.name`: the final path component. -/
def posixName (s : Str) : Str :=
  match splitLastOn '/' s with
  | some (_, n) => n
  | none => s

/-- Model of `pathlib.PurePath.parent` on normalized path strings:
`parent "/a/b" = "/a"`, `parent "/a" = "/"`, `parent "a" = "."`. -/
def posixParent (s : Str) : Str :=
  match splitLastOn '/' s with
  | none => ['.']
  | some ([], _) => ['/']
  | some (p, _) => p

/-- Stem of a bare component name.  CPython takes `i = name.rfind('.')`
and strips `name[i:]` iff `0 < i < len(name)-1` (equivalently: both the
part before and after the last dot are nonempty). -/
def stemOfName (nm : Str) : Str :=
  match splitLastOn '.' nm with
  | some (st, suf) => if st ≠ [] ∧ suf ≠ [] then st else nm
  | none => nm

/-- Model of `pathlib.PurePath.stem`: the final component minus its suffix. -/
def posixStem (s : Str) : Str := stemOfName (posixName s)

/-- Model of `pathlib.PurePath.suffix`: `".ext"` or `""`, same CPython rule as
`posixStem`. -/
def posixSuffix (s : Str) : Str :=
  let nm := posixName s
  match splitLastOn '.' nm with
  | some (st, suf) => if st ≠ [] ∧ suf ≠ [] then '.' :: suf else []
  | none => []

/-- The `pathlib` `/` operator on normalized path strings: an absolute
right operand discards the left; `"."` and `"/"` on the left do not
introduce an extra component separator. -/
def pathJoin (p q : Str) : Str :=
  if q.head? = some '/' then q
  else if p = ['.'] then q
  else if p = ['/'] then '/' :: q
  else p ++ '/' :: q

/-- Shape of a normalized path split as `pre ++ "/" ++ name`: the prefix
is empty (the path sits directly under the root) or is itself a normalized
absolute path. -/
abbrev AbsParent (pre : Str) : Prop :=
  pre = [] ∨ (pre.head? = some '/' ∧ pre ≠ ['/'])

/-- Model of `str.lower` restricted to ASCII (every extension the program compares
against is ASCII, where Python's `str.lower` agrees with `Char.toLower`). -/
def strLower (s : Str) : Str := s.map Char.toLower

/-- Rendering of one decimal digit. -/
def digitCh : Nat → Char
  | 0 => '0' | 1 => '1' | 2 => '2' | 3 => '3' | 4 => '4'
  | 5 => '5' | 6 => '6' | 7 => '7' | 8 => '8' | 9 => '9'
  | _ => '*'

/-- Decimal rendering worker: peels the least significant digit; `fuel`
bounds the digit count (`fuel = n` always suffices since `n / 10 < n`). -/
def natCharsGo : Nat → Nat → Str
  | 0, _ => []
  | fuel + 1, n =>
    if n = 0 then []
    else natCharsGo fuel (n / 10) ++ [digitCh (n % 10)]

/-- Rendering `"%d" % n` for `n ≥ 1`: decimal rendering, most significant digit
first (the program only ever renders `num + 1 ≥ 1`). -/
def natChars (n : Nat) : Str := natCharsGo n n

/-- Model of `int(...)` applied to a decimal digit string (most significant digit
first). -/
def digitsVal (s : Str) : Nat := s.foldl (fun a c => a * 10 + (c.toNat - 48)) 0

/-- Semantics of `re.compile("(?P<name>.*)[ ](?P<num>\\d+).*$").match(s)`:
the greedy `.*` makes `name` the longest prefix of `s` whose next two
characters are a space and a digit, i.e. the split happens at the LAST
occurrence of a space directly followed by a digit.  The result is
`(name, tail)` with `s = name ++ ' ' :: tail` and `tail` starting with a
digit; the `num` group is the maximal digit run at the head of `tail` and
the trailing `.*$` swallows the rest.  (In the Python pattern `.` does not
cross a newline; the embedding is only applied to newline-free strings,
where the two semantics agree — quantified theorems carry a newline-free
hypothesis for this reason.) -/
def spaceDigitSplit : Str → Option (Str × Str)
  | [] => none
  | c :: cs =>
    match spaceDigitSplit cs with
    | some (n, t) => some (c :: n, t)
    | none =>
      match cs with
      | [] => none
      | d :: _ => if c = ' ' ∧ d.isDigit then some ([], cs) else none

/-- Body of `Extract.make_unique_directory_name` (src/extract.py lines
45-61).  The filesystem existence test `directorypath.exists()` becomes
membership in `ex`, the list of existing paths.  The Python recursion
terminates because the filesystem is finite; the embedding makes this
explicit with a recursion budget `fuel`, and the wrapper below supplies a
budget that is sufficient for every run the theorems talk about (at most
one no-match step followed by strictly increasing counters, so at most
`ex.length + 2` calls). -/
def muGo (ex : List Str) : Nat → Str → Str
  | 0, dp => dp
  | fuel + 1, dp =>
    if dp ∈ ex then
      let parent_path := posixParent dp
      match spaceDigitSplit dp with
      | some (nm, t) =>
        let num := digitsVal (t.takeWhile Char.isDigit)
        let new_dir_name := nm ++ ' ' :: natChars (num + 1)
        muGo ex fuel (pathJoin parent_path new_dir_name)
      | none =>
        let new_dir_name := posixStem dp ++ ' ' :: natChars 1
        muGo ex fuel (pathJoin parent_path new_dir_name)
    else dp

/-- Model of `Extract.make_unique_directory_name` over the set `ex` of paths that
exist on disk. -/
def Extract.make_unique_directory_name (ex : List Str) (directorypath : Str) : Str :=
  muGo ex (ex.length + 3) directorypath

/-! ## Filesystem model for the extractors and the walker -/

/-- Content of a regular file, as far as the extractors can observe it:
opaque data, a tar archive with its members (relative member path and
content), a well-formed gzip stream wrapping inner data, or a damaged
gzip stream — one with a valid header but a truncated stream
(`gzfile.read()` raises `EOFError`), or with corrupt deflate data
(`gzfile.read()` raises `zlib.error`); neither of those subclasses
`OSError`.  `tarfile.open` with the default transparent mode also reads
compression-wrapped tar archives (`.tgz`; `.tbz`/`.tb2` behave the same
way via bzip2, modelled by the same wrapper constructor). -/
inductive Content where
  | plain : Content
  | tarData : List (Str × Content) → Content
  | gzData : Content → Content
  | gzTruncated : Content
  | gzCorrupt : Content

/-- The simulated filesystem: regular files (path and content) and
directories.  A path "exists" when it names a file or a directory. -/
structure SimFS where
  files : List (Str × Content)
  dirs : List Str

/-- Paths of the regular files. -/
def filePaths (fs : SimFS) : List Str := fs.files.map (fun f => f.1)

/-- Model of `Path.exists()`. -/
def SimFS.pathExists (fs : SimFS) (p : Str) : Bool :=
  (filePaths fs).contains p || fs.dirs.contains p

/-- The list of existing paths, fed to the unique-directory namer. -/
def existingPaths (fs : SimFS) : List Str := filePaths fs ++ fs.dirs

/-- Content of the regular file at `p`, if any. -/
def SimFS.lookup (fs : SimFS) (p : Str) : Option Content :=
  (fs.files.find? (fun f => f.1 == p)).map (fun f => f.2)

/-- Create or truncate-and-rewrite the regular file at `p` (what opening
for writing followed by writing does); never removes a path. -/
def SimFS.setFile (fs : SimFS) (p : Str) (c : Content) : SimFS :=
  ⟨(p, c) :: fs.files.filter (fun f => ! (f.1 == p)), fs.dirs⟩

/-- Python exceptions, as far as the `except OSError` handlers in
`Extract.tar` / `Extract.gz` can distinguish them: `osErr` stands for any
instance of `OSError` (filesystem errors, and `gzip.BadGzipFile`, which
subclasses `OSError`); the remaining constructors are the non-`OSError`
exceptions the extractors can raise — `tarfile.ReadError` (subclasses
`tarfile.TarError ⊂ Exception`), `EOFError` and `zlib.error`. -/
inductive PyError where
  | osErr : PyError
  | tarReadErr : PyError
  | eofErr : PyError
  | zlibErr : PyError
deriving DecidableEq

/-- `isinstance(exc, OSError)` — the test performed by `except OSError`.
`osErr` stands for any `OSError` instance; `tarReadErr` is
`tarfile.ReadError`, `eofErr` is `EOFError` (truncated gzip stream) and
`zlibErr` is `zlib.error` (corrupt deflate data) — none of those three
derives from `OSError`, so `except OSError` lets them escape. -/
def PyError.isOSError : PyError → Bool
  | .osErr => true
  | .tarReadErr => false
  | .eofErr => false
  | .zlibErr => false

/-- Fault injection for operating-system failures outside the program's
control (permission denied, disk full, ...): each oracle answers, per
path, whether the corresponding OS call raises an `OSError`. -/
structure Env where
  mkdirFail : Str → Bool
  tarOpenFail : Str → Bool
  extractFail : Str → Bool
  gzOpenFail : Str → Bool
  writeOpenFail : Str → Bool
  readWriteFail : Str → Bool
  unlinkFail : Str → Bool

/-- The fault-free environment: no OS-level failures are injected. -/
def envOk : Env :=
  ⟨fun _ => false, fun _ => false, fun _ => false, fun _ => false,
   fun _ => false, fun _ => false, fun _ => false⟩

/-- A state-passing fallible step: Python exceptions do not undo
filesystem effects, so the state is returned alongside the outcome. -/
abbrev Step (α : Type) := SimFS × Except PyError α

/-- Model of `extract_to.mkdir()`: fails (with `FileExistsError ⊂ OSError`) if the
path already exists, or if the environment injects a fault. -/
def opMkdir (env : Env) (fs : SimFS) (p : Str) : Step Unit :=
  if env.mkdirFail p then (fs, .error .osErr)
  else if fs.pathExists p then (fs, .error .osErr)
  else (⟨fs.files, p :: fs.dirs⟩, .ok ())

/-- What a file must contain for `tarfile.open` (transparent mode) to
succeed: a tar archive, possibly wrapped in a compression stream. -/
def tarMembers : Content → Option (List (Str × Content))
  | .tarData ms => some ms
  | .gzData c => tarMembers c
  | .plain => none
  | .gzTruncated => none
  | .gzCorrupt => none

/-- Model of `tarfile.open(filepath)`: `FileNotFoundError ⊂ OSError` when the file
is missing, `tarfile.ReadError` (NOT an `OSError`) when the file is not a
readable tar archive. -/
def opTarOpen (env : Env) (fs : SimFS) (p : Str) : Step (List (Str × Content)) :=
  if env.tarOpenFail p then (fs, .error .osErr)
  else
    match fs.lookup p with
    | none => (fs, .error .osErr)
    | some c =>
      match tarMembers c with
      | some ms => (fs, .ok ms)
      | none => (fs, .error .tarReadErr)

/-- Model of `tar.extractall(extract_to)`: writes every member under the
destination directory (member path joined below the destination). -/
def opExtractAll (env : Env) (fs : SimFS) (src dest : Str)
    (ms : List (Str × Content)) : Step Unit :=
  if env.extractFail src then (fs, .error .osErr)
  else (ms.foldl (fun acc m => acc.setFile (pathJoin dest m.1) m.2) fs, .ok ())

/-- Model of `Path(filepath).unlink()`: `FileNotFoundError ⊂ OSError` when absent. -/
def opUnlink (env : Env) (fs : SimFS) (p : Str) : Step Unit :=
  if env.unlinkFail p then (fs, .error .osErr)
  else if (filePaths fs).contains p then
    (⟨fs.files.filter (fun f => ! (f.1 == p)), fs.dirs⟩, .ok ())
  else (fs, .error .osErr)

/-- Model of `gzip.open(filepath)`: opens the underlying file (missing file raises
`FileNotFoundError ⊂ OSError`) but does not yet validate the gzip format —
that happens on `read()`. -/
def opGzOpen (env : Env) (fs : SimFS) (p : Str) : Step Content :=
  if env.gzOpenFail p then (fs, .error .osErr)
  else
    match fs.lookup p with
    | none => (fs, .error .osErr)
    | some c => (fs, .ok c)

/-- Model of `open(extract_to, "wb")`: creates or truncates the output file. -/
def opWriteOpen (env : Env) (fs : SimFS) (p : Str) : Step Unit :=
  if env.writeOpenFail p then (fs, .error .osErr)
  else (fs.setFile p .plain, .ok ())

/-- Model of `output.write(gzfile.read())`: reading data without the gzip
magic number raises `gzip.BadGzipFile`, an `OSError` subclass (caught);
reading a truncated gzip stream raises `EOFError` and corrupt deflate
data raises `zlib.error` — neither is an `OSError`, so both escape the
`except OSError` handler.  On success the decompressed data replaces the
(truncated) output file. -/
def opGzReadWrite (env : Env) (fs : SimFS) (out : Str) (raw : Content) : Step Unit :=
  if env.readWriteFail out then (fs, .error .osErr)
  else
    match raw with
    | .gzData c => (fs.setFile out c, .ok ())
    | .gzTruncated => (fs, .error .eofErr)
    | .gzCorrupt => (fs, .error .zlibErr)
    | .plain => (fs, .error .osErr)
    | .tarData _ => (fs, .error .osErr)

/-! ## The extractors (src/extract.py lines 63-151) -/

/-- Lines 80-81 / 125-126: resolve the destination directory, defaulting
to the directory containing the source file. -/
def destDefault (filepath : Str) : Option Str -> Str
  | none => posixParent filepath
  | some d => d

/-- Lines 84-85 / 128-129: the unique directory candidate
`extract_to / filepath.stem` passed through the namer. -/
def uniqueDest (fs : SimFS) (filepath dest0 : Str) : Str :=
  Extract.make_unique_directory_name (existingPaths fs) (pathJoin dest0 (posixStem filepath))

/-- Lines 83-88 / 127-132: when `create_dir` is set, create the uniquely
named directory and use it as the destination. -/
def mkdirStep (env : Env) (fs : SimFS) (filepath dest0 : Str) (create_dir : Bool) :
    SimFS × Except PyError Str :=
  if create_dir then
    match opMkdir env fs (uniqueDest fs filepath dest0) with
    | (fs1, .ok _) => (fs1, .ok (uniqueDest fs filepath dest0))
    | (fs1, .error e) => (fs1, .error e)
  else (fs, .ok dest0)

/-- Lines 99-103 / 144-147: delete the source if requested, then return
the destination. -/
def deleteStep (env : Env) (fs : SimFS) (filepath dest : Str) (delete : Bool) :
    SimFS × Except PyError Str :=
  if delete then
    match opUnlink env fs filepath with
    | (fs4, .error e) => (fs4, .error e)
    | (fs4, .ok _) => (fs4, .ok dest)
  else (fs, .ok dest)

/-- The `try` block of `Extract.tar` (lines 77-103): resolve the
destination, optionally create a uniquely named directory, open and fully
extract the archive, delete the source if requested, and return the
destination. -/
def tarTry (env : Env) (fs : SimFS) (filepath : Str) (extract_to : Option Str)
    (create_dir : Bool) (delete : Bool) : SimFS × Except PyError Str :=
  match mkdirStep env fs filepath (destDefault filepath extract_to) create_dir with
  | (fs1, .error e) => (fs1, .error e)
  | (fs1, .ok dest) =>
    match opTarOpen env fs1 filepath with
    | (fs2, .error e) => (fs2, .error e)
    | (fs2, .ok ms) =>
      match opExtractAll env fs2 filepath dest ms with
      | (fs3, .error e) => (fs3, .error e)
      | (fs3, .ok _) => deleteStep env fs3 filepath dest delete

/-- Model of `Extract.tar` (lines 63-107): the `try` body guarded by
`except OSError`, which logs and returns `None`; any other exception
(`tarfile.ReadError`) propagates to the caller. -/
def Extract.tar (env : Env) (fs : SimFS) (filepath : Str) (extract_to : Option Str)
    (create_dir : Bool) (delete : Bool) : SimFS × Except PyError (Option Str) :=
  match tarTry env fs filepath extract_to create_dir delete with
  | (fs1, .ok d) => (fs1, .ok (some d))
  | (fs1, .error e) => if e.isOSError then (fs1, .ok none) else (fs1, .error e)

/-- Line 134: the gzip output file path `extract_to / filepath.stem`
(the stem strips the `.gz` suffix). -/
def gzOutPath (dest filepath : Str) : Str := pathJoin dest (posixStem filepath)

/-- The `try` block of `Extract.gz` (lines 123-147): resolve the
destination, optionally create a uniquely named directory, compute the
output file `destination/<stem>`, open the gzip stream, open the output
for writing, decompress into it, delete the source if requested, and
return the output file path. -/
def gzTry (env : Env) (fs : SimFS) (filepath : Str) (extract_to : Option Str)
    (create_dir : Bool) (delete : Bool) : SimFS × Except PyError Str :=
  match mkdirStep env fs filepath (destDefault filepath extract_to) create_dir with
  | (fs1, .error e) => (fs1, .error e)
  | (fs1, .ok dest) =>
    match opGzOpen env fs1 filepath with
    | (fs2, .error e) => (fs2, .error e)
    | (fs2, .ok raw) =>
      match opWriteOpen env fs2 (gzOutPath dest filepath) with
      | (fs3, .error e) => (fs3, .error e)
      | (fs3, .ok _) =>
        match opGzReadWrite env fs3 (gzOutPath dest filepath) raw with
        | (fs4, .error e) => (fs4, .error e)
        | (fs4, .ok _) => deleteStep env fs4 filepath (gzOutPath dest filepath) delete

/-- Model of `Extract.gz` (lines 109-151): the `try` body guarded by
`except OSError`. -/
def Extract.gz (env : Env) (fs : SimFS) (filepath : Str) (extract_to : Option Str)
    (create_dir : Bool) (delete : Bool) : SimFS × Except PyError (Option Str) :=
  match gzTry env fs filepath extract_to create_dir delete with
  | (fs1, .ok d) => (fs1, .ok (some d))
  | (fs1, .error e) => if e.isOSError then (fs1, .ok none) else (fs1, .error e)

/-! ## Tree walker and top-level dispatch (src/extract.py lines 153-211) -/

/-- The tuple `Extract.file_extensions = ('.tar', '.tgz', '.tbz', '.tb2')`. -/
def Extract.file_extensions : List Str :=
  ".tar".data :: ".tgz".data :: ".tbz".data :: ".tb2".data :: []

def gzExt : Str := ".gz".data

/-- One extractor invocation performed during a walk, with the flags it
was given — the observable the flag-threading claims are about. -/
inductive Call where
  | tarC : Str → Bool → Bool → Call
  | gzC : Str → Bool → Bool → Call
deriving DecidableEq

/-- Model of `directory_path.glob("**/*.*")` filtered by `is_file()`: every regular
file strictly below `dir` whose final component contains a dot, in
filesystem enumeration order.  (`pathlib` returns an empty iteration when
`dir` is not a directory, which this definition also does, since no file
path strictly extends a file path.) -/
def snapshotFiles (fs : SimFS) (dir : Str) : List Str :=
  (filePaths fs).filter (fun p =>
    (dir ++ ('/' : Char) :: []).isPrefixOf p && (posixName p).contains '.')

/-- The `for` loop of `walk_tree_and_extract` (lines 167-178), over the
snapshot `files`; `recurse` is the recursive walker call
`Extract.walk_tree_and_extract(new_dir)`, which the source invokes WITHOUT
passing the flags (so the callee uses its defaults).  Returns the final
state, the extractor invocations in order, and the first uncaught
exception, if any (the walker has no handler, so it aborts the loop). -/
def walkLoop (env : Env) (recurse : SimFS → Str → SimFS × List Call × Option PyError) :
    List Str → SimFS → Bool → Bool → Bool → SimFS × List Call × Option PyError
  | [], fs, _, _, _ => (fs, [], none)
  | fp :: rest, fs, delete, create_dir, gz_create_dir =>
    let ext := posixSuffix fp
    if strLower ext ∈ Extract.file_extensions then
      match Extract.tar env fs fp none create_dir delete with
      | (fs1, .error e) => (fs1, Call.tarC fp create_dir delete :: [], some e)
      | (fs1, .ok none) =>
        let (fs3, t3, e3) := walkLoop env recurse rest fs1 delete create_dir gz_create_dir
        (fs3, Call.tarC fp create_dir delete :: t3, e3)
      | (fs1, .ok (some nd)) =>
        match recurse fs1 nd with
        | (fs2, t2, some e) => (fs2, Call.tarC fp create_dir delete :: t2, some e)
        | (fs2, t2, none) =>
          let (fs3, t3, e3) := walkLoop env recurse rest fs2 delete create_dir gz_create_dir
          (fs3, Call.tarC fp create_dir delete :: (t2 ++ t3), e3)
    else if strLower ext = gzExt then
      match Extract.gz env fs fp none gz_create_dir delete with
      | (fs1, .error e) => (fs1, Call.gzC fp gz_create_dir delete :: [], some e)
      | (fs1, .ok none) =>
        let (fs3, t3, e3) := walkLoop env recurse rest fs1 delete create_dir gz_create_dir
        (fs3, Call.gzC fp gz_create_dir delete :: t3, e3)
      | (fs1, .ok (some nd)) =>
        match recurse fs1 nd with
        | (fs2, t2, some e) => (fs2, Call.gzC fp gz_create_dir delete :: t2, some e)
        | (fs2, t2, none) =>
          let (fs3, t3, e3) := walkLoop env recurse rest fs2 delete create_dir gz_create_dir
          (fs3, Call.gzC fp gz_create_dir delete :: (t2 ++ t3), e3)
    else
      walkLoop env recurse rest fs delete create_dir gz_create_dir

/-- Model of `Extract.walk_tree_and_extract` (lines 153-178).  The file list is a
single snapshot taken before the loop runs; the nested recursive call on
`new_dir` is made with the Python DEFAULT flags
(`delete=True, create_dir=True, gz_create_dir=False`) because the source
writes `Extract.walk_tree_and_extract(new_dir)` with no arguments.  `fuel`
bounds the nesting depth (finite in any real run; every theorem below
supplies enough). -/
def Extract.walk_tree_and_extract (env : Env) :
    Nat → SimFS → Str → Bool → Bool → Bool → SimFS × List Call × Option PyError
  | 0, fs, _, _, _, _ => (fs, [], none)
  | fuel + 1, fs, directory_path, delete, create_dir, gz_create_dir =>
    walkLoop env
      (fun fs1 nd => Extract.walk_tree_and_extract env fuel fs1 nd true true false)
      (snapshotFiles fs directory_path) fs delete create_dir gz_create_dir

/-- Model of `Extract.extract` (lines 180-211): dispatch on the RAW suffix (note:
no `.lower()` here, unlike the walker), extract once with
`create_dir=True, delete=False`, then if `recursive` and a destination was
produced, walk it with the caller's flags.  An unrecognized extension is a
logged no-op. -/
def Extract.extract (env : Env) (fuel : Nat) (fs : SimFS) (filepath : Str)
    (extract_to : Option Str) (recursive : Bool) (delete : Bool)
    (create_dir : Bool) (gz_create_dir : Bool) : SimFS × List Call × Option PyError :=
  let ext := posixSuffix filepath
  if ext ∈ Extract.file_extensions then
    match Extract.tar env fs filepath extract_to true false with
    | (fs1, .error e) => (fs1, Call.tarC filepath true false :: [], some e)
    | (fs1, .ok none) => (fs1, Call.tarC filepath true false :: [], none)
    | (fs1, .ok (some nd)) =>
      if recursive then
        let (fs2, t2, e2) :=
          Extract.walk_tree_and_extract env fuel fs1 nd delete create_dir gz_create_dir
        (fs2, Call.tarC filepath true false :: t2, e2)
      else (fs1, Call.tarC filepath true false :: [], none)
  else if ext = gzExt then
    match Extract.gz env fs filepath extract_to true false with
    | (fs1, .error e) => (fs1, Call.gzC filepath true false :: [], some e)
    | (fs1, .ok none) => (fs1, Call.gzC filepath true false :: [], none)
    | (fs1, .ok (some nd)) =>
      if recursive then
        let (fs2, t2, e2) :=
          Extract.walk_tree_and_extract env fuel fs1 nd delete create_dir gz_create_dir
        (fs2, Call.gzC filepath true false :: t2, e2)
      else (fs1, Call.gzC filepath true false :: [], none)
  else (fs, [], none)

/-! ## Concrete fixtures used by witnesses and counterexamples -/

def sHome : Str := "/home".data
def sTest : Str := "test".data
def sHomeTest : Str := "/home/test".data
def sHomeTest1 : Str := "/home/test 1".data
def sHomeTest2 : Str := "/home/test 2".data
def sAbc : Str := "/a/b.c".data
def sAb1 : Str := "/a/b 1".data
def sAbc1 : Str := "/a/b.c 1".data
def sA1b : Str := "/a 1/b".data
def sA2 : Str := "/a 2".data
def sArch : Str := "archive2".data
def sArch1 : Str := "archive2 1".data
def sDxTar : Str := "/d/x.tar".data
def sDx1 : Str := "/d/x 1".data
def sD : Str := "/d".data
def sX : Str := "x".data
def sTarSuf : Str := "tar".data
def sR : Str := "/r".data
def sRA : Str := "/r/a".data
def sRATar : Str := "/r/a.tar".data
def sBTar : Str := "b.tar".data
def sRABTar : Str := "/r/a/b.tar".data
def sCTxt : Str := "c.txt".data
def sRABCTxt : Str := "/r/a/b/c.txt".data
def sXTAR : Str := "/d/x.TAR".data
def sMTxt : Str := "m.txt".data
def sDXdir : Str := "/d/x".data
def sDXM : Str := "/d/x/m.txt".data
def sGzFile : Str := "/g/data.txt.gz".data
def sGzOut : Str := "/g/data.txt".data
def sG : Str := "/g".data

/-- A tree with `a.tar` containing a nested `b.tar` which contains a plain
file — the nested-extraction scenario of the walker claims. -/
def fsNested : SimFS :=
  ⟨(sRATar, .tarData ((sBTar, .tarData ((sCTxt, .plain) :: [])) :: [])) :: [], sR :: []⟩

/-- A file with the tar extension whose content is not a tar archive. -/
def fsCorrupt : SimFS := ⟨(sDxTar, .plain) :: [], sD :: []⟩

/-- A well-formed tar archive with one plain member. -/
def fsPlainTar : SimFS := ⟨(sDxTar, .tarData ((sMTxt, .plain) :: [])) :: [], sD :: []⟩

/-- A tar archive whose name differs only in extension case. -/
def fsUpper : SimFS := ⟨(sXTAR, .tarData ((sMTxt, .plain) :: [])) :: [], sD :: []⟩

/-- A gzip file next to an already existing file at the output path. -/
def fsGz : SimFS :=
  ⟨(sGzFile, .gzData .plain) :: (sGzOut, .tarData []) :: [], sG :: []⟩

def exC1 : List Str := sHomeTest :: sHomeTest1 :: []

def extTAR : Str := ".TAR".data

/-- The state `Extract.tar` leaves behind on `fsCorrupt`: the unique
directory was created before `tarfile.open` raised. -/
def fsCorruptAfter : SimFS := ⟨fsCorrupt.files, sDXdir :: fsCorrupt.dirs⟩

/-- The state after a successful `Extract.tar` on `fsPlainTar` with
`create_dir=True, delete=True`: the member extracted, the source gone. -/
def fsAfterTar : SimFS := ⟨(sDXM, Content.plain) :: [], sDXdir :: sD :: []⟩

/-- Fault injection: `tar.extractall` fails (disk full, say) on the
archive at `/d/x.tar`. -/
def envExtractFail : Env :=
  ⟨fun _ => false, fun _ => false, fun p => p == sDxTar, fun _ => false,
   fun _ => false, fun _ => false, fun _ => false⟩

/-- The state after the failed `Extract.tar` under `envExtractFail`: the
directory was created, the files — including the source — untouched. -/
def fsAfterFail : SimFS := ⟨fsPlainTar.files, sDXdir :: sD :: []⟩

def sGzTruncFile : Str := "/g/bad.txt.gz".data
def sGzTruncOut : Str := "/g/bad.txt".data

/-- A gzip file whose stream is truncated: `gzip.open` succeeds but
`read()` raises `EOFError`. -/
def fsGzTrunc : SimFS := ⟨(sGzTruncFile, .gzTruncated) :: [], sG :: []⟩

/-- The state `Extract.gz` leaves behind on `fsGzTrunc`: the output file
was created (truncated, empty) by `open(extract_to, "wb")` before
`read()` raised, and the source was never deleted. -/
def fsGzTruncAfter : SimFS :=
  ⟨(sGzTruncOut, Content.plain) :: (sGzTruncFile, Content.gzTruncated) :: [], sG :: []⟩

/-! ## Lemmas: splitting, digits, and the namer's recursion -/

theorem splitLastOn_eq_none {ch : Char} {s : Str} (h : ch ∉ s) :
    splitLastOn ch s = none := by
  induction s with
  | nil => rfl
  | cons c cs ih =>
    have hc : ¬ c = ch := fun e => h (e ▸ List.mem_cons_self c cs)
    have hcs : ch ∉ cs := fun m => h (List.mem_cons_of_mem c m)
    simp [splitLastOn, ih hcs, hc]

theorem splitLastOn_append {ch : Char} (pre nm : Str) (h : ch ∉ nm) :
    splitLastOn ch (pre ++ ch :: nm) = some (pre, nm) := by
  induction pre with
  | nil => simp [splitLastOn, splitLastOn_eq_none h]
  | cons c cs ih => simp [splitLastOn, ih]

theorem posixName_append (pre nm : Str) (h : ('/' : Char) ∉ nm) :
    posixName (pre ++ '/' :: nm) = nm := by
  simp [posixName, splitLastOn_append pre nm h]

theorem posixName_no_slash {s : Str} (h : ('/' : Char) ∉ s) : posixName s = s := by
  simp [posixName, splitLastOn_eq_none h]

theorem posixParent_append (pre nm : Str) (h : ('/' : Char) ∉ nm) :
    posixParent (pre ++ '/' :: nm) = if pre = [] then ['/'] else pre := by
  rw [posixParent, splitLastOn_append pre nm h]
  cases pre <;> simp

theorem posixParent_no_slash {s : Str} (h : ('/' : Char) ∉ s) :
    posixParent s = ['.'] := by
  simp [posixParent, splitLastOn_eq_none h]

theorem stemOfName_no_dot {nm : Str} (h : ('.' : Char) ∉ nm) : stemOfName nm = nm := by
  simp [stemOfName, splitLastOn_eq_none h]

theorem stemOfName_dot (st suf : Str) (hst : st ≠ []) (hsuf : suf ≠ [])
    (h : ('.' : Char) ∉ suf) : stemOfName (st ++ '.' :: suf) = st := by
  simp [stemOfName, splitLastOn_append st suf h, hst, hsuf]

theorem pathJoin_abs (p q : Str) (h : q.head? = some '/') : pathJoin p q = q := by
  simp [pathJoin, h]

theorem pathJoin_parent_append {pre : Str} (nm q : Str) (hpre : AbsParent pre)
    (hnm : ('/' : Char) ∉ nm) (hq : ¬ q.head? = some '/') :
    pathJoin (posixParent (pre ++ '/' :: nm)) q = pre ++ '/' :: q := by
  rcases hpre with h | ⟨h1, h2⟩
  · subst h
    rw [posixParent_append _ _ hnm, if_pos rfl]
    simp [pathJoin, hq]
  · have hne : pre ≠ [] := by intro e; rw [e] at h1; simp at h1
    have hdot : pre ≠ ['.'] := by intro e; rw [e] at h1; simp at h1
    rw [posixParent_append _ _ hnm, if_neg hne]
    simp [pathJoin, hq, hdot, h2]

theorem spaceDigitSplit_cons_eq (c : Char) (cs : Str) :
    spaceDigitSplit (c :: cs) =
      (match spaceDigitSplit cs with
       | some (n, t) => some (c :: n, t)
       | none =>
         match cs with
         | [] => none
         | d :: _ => if c = ' ' ∧ d.isDigit then some ([], cs) else none) := rfl

theorem spaceDigitSplit_cons_none {c : Char} {cs : Str}
    (h : spaceDigitSplit (c :: cs) = none) : spaceDigitSplit cs = none := by
  cases hcs : spaceDigitSplit cs with
  | none => rfl
  | some p =>
    rw [spaceDigitSplit_cons_eq, hcs] at h
    cases p with
    | mk n t => simp at h

theorem spaceDigitSplit_no_space {s : Str} (h : (' ' : Char) ∉ s) :
    spaceDigitSplit s = none := by
  induction s with
  | nil => rfl
  | cons c cs ih =>
    have hc : ¬ c = ' ' := fun e => h (e ▸ List.mem_cons_self c cs)
    have ihs := ih (fun m => h (List.mem_cons_of_mem c m))
    cases cs with
    | nil => rfl
    | cons d ds =>
      rw [spaceDigitSplit_cons_eq, ihs]
      simp [hc]

theorem spaceDigitSplit_append_some (a : Str) {b n t : Str}
    (h : spaceDigitSplit b = some (n, t)) :
    spaceDigitSplit (a ++ b) = some (a ++ n, t) := by
  induction a with
  | nil => simpa using h
  | cons c cs ih =>
    rw [List.cons_append, spaceDigitSplit_cons_eq, ih]
    rfl

theorem spaceDigitSplit_some_eq {s n t : Str}
    (h : spaceDigitSplit s = some (n, t)) : s = n ++ ' ' :: t := by
  induction s generalizing n t with
  | nil => simp [spaceDigitSplit] at h
  | cons c cs ih =>
    rw [spaceDigitSplit_cons_eq] at h
    cases hcs : spaceDigitSplit cs with
    | some p =>
      rw [hcs] at h
      cases p with
      | mk n' t' =>
        simp at h
        rcases h with ⟨h1, h2⟩
        rw [← h1, ← h2]
        simpa using ih hcs
    | none =>
      rw [hcs] at h
      cases cs with
      | nil => simp at h
      | cons d ds =>
        have h2 : (if c = ' ' ∧ d.isDigit then some (([] : Str), d :: ds) else none)
            = some (n, t) := h
        by_cases hcd : c = ' ' ∧ d.isDigit
        · rw [if_pos hcd] at h2
          simp at h2
          rcases h2 with ⟨h1, h3⟩
          subst h1
          rw [← h3, hcd.1]
          rfl
        · rw [if_neg hcd] at h2
          simp at h2

theorem spaceDigitSplit_append_digits {P D : Str} (hP : spaceDigitSplit P = none)
    (hD : D ≠ []) (hdig : ∀ c ∈ D, c.isDigit = true) :
    spaceDigitSplit (P ++ ' ' :: D) = some (P, D) := by
  induction P with
  | nil =>
    cases D with
    | nil => exact absurd rfl hD
    | cons d ds =>
      have hns : spaceDigitSplit (d :: ds) = none := by
        apply spaceDigitSplit_no_space
        intro m
        have := hdig ' ' m
        simp at this
      rw [List.nil_append, spaceDigitSplit_cons_eq, hns]
      simp [hdig d (by simp)]
  | cons c cs ihp =>
    have hcs := spaceDigitSplit_cons_none hP
    rw [List.cons_append, spaceDigitSplit_cons_eq, ihp hcs]

theorem digitCh_isDigit {m : Nat} (h : m < 10) : (digitCh m).isDigit = true := by
  interval_cases m <;> decide

theorem digitCh_toNat {m : Nat} (h : m < 10) : (digitCh m).toNat = 48 + m := by
  interval_cases m <;> decide

theorem natCharsGo_digits (fuel n : Nat) : ∀ c ∈ natCharsGo fuel n, c.isDigit = true := by
  induction fuel generalizing n with
  | zero => intro c hc; simp [natCharsGo] at hc
  | succ fuel ih =>
    intro c hc
    by_cases h : n = 0
    · simp [natCharsGo, h] at hc
    · rw [natCharsGo, if_neg h] at hc
      rcases List.mem_append.mp hc with hc | hc
      · exact ih _ c hc
      · have : c = digitCh (n % 10) := by simpa using hc
        rw [this]
        exact digitCh_isDigit (Nat.mod_lt _ (by norm_num))

theorem natChars_digits (n : Nat) : ∀ c ∈ natChars n, c.isDigit = true :=
  natCharsGo_digits n n

theorem natChars_ne_nil {n : Nat} (h : 1 ≤ n) : natChars n ≠ [] := by
  cases n with
  | zero => omega
  | succ m =>
    show natCharsGo (m + 1) (m + 1) ≠ []
    rw [natCharsGo, if_neg (Nat.succ_ne_zero m)]
    simp

theorem digitsVal_append (s : Str) (c : Char) :
    digitsVal (s ++ [c]) = digitsVal s * 10 + (c.toNat - 48) := by
  simp [digitsVal, List.foldl_append]

theorem digitsVal_natCharsGo {fuel n : Nat} (h : n ≤ fuel) :
    digitsVal (natCharsGo fuel n) = n := by
  induction fuel generalizing n with
  | zero =>
    have : n = 0 := Nat.le_zero.mp h
    subst this; rfl
  | succ fuel ih =>
    by_cases h0 : n = 0
    · subst h0; rfl
    · rw [natCharsGo, if_neg h0, digitsVal_append]
      have hlt : n / 10 < n := Nat.div_lt_self (Nat.pos_of_ne_zero h0) (by norm_num)
      rw [ih (by omega), digitCh_toNat (Nat.mod_lt _ (by norm_num))]
      omega

theorem digitsVal_natChars (n : Nat) : digitsVal (natChars n) = n :=
  digitsVal_natCharsGo (Nat.le_refl n)

theorem takeWhile_digits {D : Str} (h : ∀ c ∈ D, c.isDigit = true) :
    D.takeWhile Char.isDigit = D := by
  induction D with
  | nil => rfl
  | cons d ds ih =>
    rw [List.takeWhile_cons, h d (by simp)]
    simp [ih (fun c hc => h c (List.mem_cons_of_mem _ hc))]

theorem muGo_end {ex : List Str} {P : Str} (h : P ∉ ex) (fuel : Nat) :
    muGo ex fuel P = P := by
  cases fuel with
  | zero => rfl
  | succ fuel => simp [muGo, h]

theorem muGo_step_nomatch {ex : List Str} {P : Str} (fuel : Nat)
    (hmem : P ∈ ex) (hsd : spaceDigitSplit P = none) :
    muGo ex (fuel + 1) P
      = muGo ex fuel (pathJoin (posixParent P) (posixStem P ++ ' ' :: natChars 1)) := by
  simp [muGo, hmem, hsd]

theorem muGo_step_match {ex : List Str} {P n t : Str} (fuel : Nat)
    (hmem : P ∈ ex) (hsd : spaceDigitSplit P = some (n, t)) :
    muGo ex (fuel + 1) P
      = muGo ex fuel (pathJoin (posixParent P)
          (n ++ ' ' :: natChars (digitsVal (t.takeWhile Char.isDigit) + 1))) := by
  simp [muGo, hmem, hsd]

theorem splitLastOn_cons_eq (ch c : Char) (cs : Str) :
    splitLastOn ch (c :: cs) =
      (match splitLastOn ch cs with
       | some (p, n) => some (c :: p, n)
       | none => if c = ch then some ([], cs) else none) := rfl

theorem splitLastOn_some_eq {ch : Char} {s p n : Str}
    (h : splitLastOn ch s = some (p, n)) : s = p ++ ch :: n := by
  induction s generalizing p n with
  | nil => simp [splitLastOn] at h
  | cons c cs ih =>
    rw [splitLastOn_cons_eq] at h
    cases hcs : splitLastOn ch cs with
    | some q =>
      rw [hcs] at h
      cases q with
      | mk p' n' =>
        simp at h
        rcases h with ⟨h1, h2⟩
        rw [← h1, ← h2]
        simpa using ih hcs
    | none =>
      rw [hcs] at h
      by_cases hc : c = ch
      · rw [if_pos hc] at h
        simp at h
        rcases h with ⟨h1, h2⟩
        subst h1
        rw [← h2, hc]
        rfl
      · rw [if_neg hc] at h
        simp at h

theorem digit_ne_slash {c : Char} (h : c.isDigit = true) : c ≠ '/' := by
  intro e
  subst e
  exact absurd h (by decide)

theorem stemOfName_good {nm : Str} (h1 : nm ≠ []) (h2 : ('/' : Char) ∉ nm) :
    stemOfName nm ≠ [] ∧ ('/' : Char) ∉ stemOfName nm := by
  cases hs : splitLastOn '.' nm with
  | none =>
    have hgoal : stemOfName nm = nm := by
      simp only [stemOfName, hs]
    rw [hgoal]
    exact ⟨h1, h2⟩
  | some p =>
    obtain ⟨st, suf⟩ := p
    have hgoal : stemOfName nm = (if st ≠ [] ∧ suf ≠ [] then st else nm) := by
      simp only [stemOfName, hs]
    by_cases hc : st ≠ [] ∧ suf ≠ []
    · rw [hgoal, if_pos hc]
      have heq := splitLastOn_some_eq hs
      refine ⟨hc.1, fun hm => h2 ?_⟩
      rw [heq]
      exact List.mem_append.mpr (Or.inl hm)
    · rw [hgoal, if_neg hc]
      exact ⟨h1, h2⟩

theorem head_append_not_slash {P : Str} (x : Str) (h1 : P ≠ [])
    (h2 : ('/' : Char) ∉ P) : ¬ (P ++ x).head? = some '/' := by
  cases P with
  | nil => exact absurd rfl h1
  | cons a as =>
    have ha : a ≠ '/' := fun e => h2 (e ▸ List.mem_cons_self a as)
    simp [ha]

theorem head_append_abs {pre : Str} (nm x : Str) (hpre : AbsParent pre) :
    ((pre ++ '/' :: nm) ++ x).head? = some '/' := by
  rcases hpre with h | ⟨h1, _⟩
  · subst h; rfl
  · cases pre with
    | nil => simp at h1
    | cons c cs => simpa using h1

theorem spaceDigitSplit_cons_cons_none {c e : Char} {es : Str}
    (h : spaceDigitSplit (c :: e :: es) = none) : ¬ (c = ' ' ∧ e.isDigit = true) := by
  intro hce
  have hcs := spaceDigitSplit_cons_none h
  rw [spaceDigitSplit_cons_eq, hcs] at h
  have h2 : (if c = ' ' ∧ e.isDigit then some (([] : Str), e :: es) else none)
      = (none : Option (Str × Str)) := h
  rw [if_pos hce] at h2
  simp at h2

theorem spaceDigitSplit_append_none {a b : Str} (ha : spaceDigitSplit a = none)
    (hb : spaceDigitSplit b = none)
    (hbd : ∀ d, b.head? = some d → d.isDigit = false) :
    spaceDigitSplit (a ++ b) = none := by
  induction a with
  | nil => simpa using hb
  | cons c cs ih =>
    have hcs := spaceDigitSplit_cons_none ha
    rw [List.cons_append, spaceDigitSplit_cons_eq, ih hcs]
    cases hcsb : cs ++ b with
    | nil => rfl
    | cons d ds =>
      by_cases hc : c = ' '
      · have hd : d.isDigit = false := by
          cases cs with
          | nil =>
            apply hbd
            have hb2 : b = d :: ds := by simpa using hcsb
            rw [hb2]
            rfl
          | cons e es =>
            have hpair := spaceDigitSplit_cons_cons_none ha
            rw [List.cons_append] at hcsb
            injection hcsb with hed hrest
            rw [← hed]
            by_contra hne
            exact hpair ⟨hc, by simpa using hne⟩
        simp [hc, hd]
      · simp [hc]

theorem muGo_probe_start {ex : List Str} {pre nm : Str} (fuel : Nat)
    (hpre : AbsParent pre) (hnm1 : nm ≠ []) (hnm2 : ('/' : Char) ∉ nm)
    (hnm3 : ('.' : Char) ∉ nm)
    (hsd : spaceDigitSplit (pre ++ '/' :: nm) = none)
    (hmem : pre ++ '/' :: nm ∈ ex) :
    muGo ex (fuel + 1) (pre ++ '/' :: nm)
      = muGo ex fuel ((pre ++ '/' :: nm) ++ ' ' :: natChars 1) := by
  rw [muGo_step_nomatch fuel hmem hsd]
  have hstem : posixStem (pre ++ '/' :: nm) = nm := by
    rw [posixStem, posixName_append _ _ hnm2, stemOfName_no_dot hnm3]
  rw [hstem]
  rw [pathJoin_parent_append nm _ hpre hnm2
    (head_append_not_slash _ hnm1 hnm2)]
  simp

theorem muGo_probe_step {ex : List Str} {pre nm : Str} (fuel j : Nat)
    (hpre : AbsParent pre) (hj : 1 ≤ j)
    (hsd : spaceDigitSplit (pre ++ '/' :: nm) = none)
    (hmem : (pre ++ '/' :: nm) ++ ' ' :: natChars j ∈ ex) :
    muGo ex (fuel + 1) ((pre ++ '/' :: nm) ++ ' ' :: natChars j)
      = muGo ex fuel ((pre ++ '/' :: nm) ++ ' ' :: natChars (j + 1)) := by
  have hsplit := spaceDigitSplit_append_digits hsd (natChars_ne_nil hj) (natChars_digits j)
  rw [muGo_step_match fuel hmem hsplit]
  rw [takeWhile_digits (natChars_digits j), digitsVal_natChars]
  rw [pathJoin_abs _ _ (head_append_abs nm _ hpre)]

theorem muGo_probe_chain {ex : List Str} {pre nm : Str} {k : Nat}
    (hpre : AbsParent pre)
    (hsd : spaceDigitSplit (pre ++ '/' :: nm) = none)
    (hmem : ∀ i, 1 ≤ i → i ≤ k → (pre ++ '/' :: nm) ++ ' ' :: natChars i ∈ ex) :
    ∀ n j fuel, 1 ≤ j → j + n = k + 1 →
      muGo ex (fuel + n) ((pre ++ '/' :: nm) ++ ' ' :: natChars j)
        = muGo ex fuel ((pre ++ '/' :: nm) ++ ' ' :: natChars (k + 1)) := by
  intro n
  induction n with
  | zero =>
    intro j fuel h1 hjn
    have hj : j = k + 1 := by omega
    subst hj
    rfl
  | succ n ih =>
    intro j fuel h1 hjn
    have hjk : j ≤ k := by omega
    have hfs : fuel + (n + 1) = (fuel + n) + 1 := by omega
    rw [hfs, muGo_probe_step (fuel + n) j hpre h1 hsd (hmem j h1 hjk)]
    exact ih (j + 1) fuel (by omega) (by omega)

theorem probe_count {ex : List Str} {pre nm : Str} {k : Nat}
    (hmem0 : pre ++ '/' :: nm ∈ ex)
    (hmem : ∀ i, 1 ≤ i → i ≤ k → (pre ++ '/' :: nm) ++ ' ' :: natChars i ∈ ex) :
    k + 1 ≤ ex.length := by
  classical
  have hsub : ∀ i ∈ Finset.range (k + 1),
      (if i = 0 then pre ++ '/' :: nm else (pre ++ '/' :: nm) ++ ' ' :: natChars i)
        ∈ ex.toFinset := by
    intro i hi
    rw [List.mem_toFinset]
    by_cases h0 : i = 0
    · simpa [h0] using hmem0
    · rw [if_neg h0]
      have hik := Finset.mem_range.mp hi
      exact hmem i (by omega) (by omega)
  have hinj : Set.InjOn
      (fun i => if i = 0 then pre ++ '/' :: nm else (pre ++ '/' :: nm) ++ ' ' :: natChars i)
      (Finset.range (k + 1)) := by
    intro a _ b _ hab
    simp only at hab
    by_cases h0a : a = 0 <;> by_cases h0b : b = 0
    · omega
    · rw [if_pos h0a, if_neg h0b] at hab
      have := congrArg List.length hab
      simp [List.length_append] at this
    · rw [if_neg h0a, if_pos h0b] at hab
      have := congrArg List.length hab
      simp [List.length_append] at this
    · rw [if_neg h0a, if_neg h0b] at hab
      have h1 : (' ' :: natChars a : Str) = ' ' :: natChars b :=
        List.append_cancel_left hab
      have h2 : natChars a = natChars b := by simpa using h1
      have := congrArg digitsVal h2
      rw [digitsVal_natChars, digitsVal_natChars] at this
      exact this
  have hcard := Finset.card_le_card_of_injOn _ hsub hinj
  rw [Finset.card_range] at hcard
  exact le_trans hcard (List.toFinset_card_le ex)

/-- Fuel-general form of the C8 shape property: starting from a path whose
prefix (everything above the final component) is clean — absolute,
normalized, and free of space-digit occurrences — every candidate the
namer probes, and hence its final answer, keeps that prefix intact and
only rewrites the final component. -/
theorem muGo_keeps_prefix {pre : Str} (hpre : AbsParent pre)
    (hpsd : spaceDigitSplit pre = none) :
    ∀ fuel (ex : List Str) (nm : Str), nm ≠ [] → ('/' : Char) ∉ nm →
      ∃ nm', nm' ≠ [] ∧ ('/' : Char) ∉ nm' ∧
        muGo ex fuel (pre ++ '/' :: nm) = pre ++ '/' :: nm' := by
  intro fuel
  induction fuel with
  | zero =>
    intro ex nm h1 h2
    exact ⟨nm, h1, h2, rfl⟩
  | succ fuel ih =>
    intro ex nm h1 h2
    by_cases hmem : pre ++ '/' :: nm ∈ ex
    · cases hin : spaceDigitSplit nm with
      | none =>
        -- no space-digit occurrence anywhere: the else (stem) branch runs
        have hslash : spaceDigitSplit ('/' :: nm) = none := by
          rw [spaceDigitSplit_cons_eq, hin]
          cases nm with
          | nil => rfl
          | cons d ds => simp [show ¬ ('/' : Char) = ' ' from by decide]
        have hsd : spaceDigitSplit (pre ++ '/' :: nm) = none := by
          apply spaceDigitSplit_append_none hpsd hslash
          intro d hd
          have h0 : (some '/' : Option Char) = some d := hd
          injection h0 with h0
          rw [← h0]
          decide
        rw [muGo_step_nomatch fuel hmem hsd]
        have hstem : posixStem (pre ++ '/' :: nm) = stemOfName nm := by
          rw [posixStem, posixName_append _ _ h2]
        obtain ⟨hs1, hs2⟩ := stemOfName_good h1 h2
        have hq1 : stemOfName nm ++ ' ' :: natChars 1 ≠ [] := by
          intro e
          exact List.noConfusion (List.append_eq_nil.mp e).2
        have hq2 : ('/' : Char) ∉ stemOfName nm ++ ' ' :: natChars 1 := by
          intro hm
          rcases List.mem_append.mp hm with hx | hx
          · exact hs2 hx
          · rcases List.mem_cons.mp hx with hx | hx
            · exact absurd hx.symm (by decide)
            · exact digit_ne_slash (natChars_digits 1 _ hx) rfl
        rw [hstem, pathJoin_parent_append nm _ hpre h2
          (head_append_not_slash _ hs1 hs2)]
        exact ih ex _ hq1 hq2
      | some q =>
        -- the match lies inside the final component (`pre` is clean)
        obtain ⟨n1, t1⟩ := q
        have hslash : spaceDigitSplit ('/' :: nm) = some ('/' :: n1, t1) := by
          rw [spaceDigitSplit_cons_eq, hin]
        have hfull := spaceDigitSplit_append_some pre hslash
        have hnm_eq : nm = n1 ++ ' ' :: t1 := spaceDigitSplit_some_eq hin
        have hn1 : ('/' : Char) ∉ n1 := fun hm => h2 (by
          rw [hnm_eq]
          exact List.mem_append.mpr (Or.inl hm))
        rw [muGo_step_match fuel hmem hfull]
        set v := digitsVal (t1.takeWhile Char.isDigit) + 1 with hv
        have habs : ((pre ++ '/' :: n1) ++ ' ' :: natChars v).head? = some '/' :=
          head_append_abs n1 _ hpre
        rw [pathJoin_abs _ _ habs]
        have hassoc : (pre ++ '/' :: n1) ++ ' ' :: natChars v
            = pre ++ '/' :: (n1 ++ ' ' :: natChars v) := by
          simp
        rw [hassoc]
        apply ih
        · intro e
          exact List.noConfusion (List.append_eq_nil.mp e).2
        · intro hm
          rcases List.mem_append.mp hm with hx | hx
          · exact hn1 hx
          · rcases List.mem_cons.mp hx with hx | hx
            · exact absurd hx.symm (by decide)
            · exact digit_ne_slash (natChars_digits v _ hx) rfl
    · exact ⟨nm, h1, h2, muGo_end hmem _⟩

/-! ## Lemmas about the filesystem primitives and the extractors -/

theorem mem_filePaths_setFile {fs : SimFS} {p q : Str} {c : Content}
    (h : q ∈ filePaths fs) : q ∈ filePaths (fs.setFile p c) := by
  rw [filePaths, SimFS.setFile]
  simp only [List.map_cons]
  by_cases hqp : q = p
  · exact hqp ▸ List.mem_cons_self _ _
  · apply List.mem_cons_of_mem
    rcases List.mem_map.mp h with ⟨f, hf, hq⟩
    apply List.mem_map.mpr
    refine ⟨f, List.mem_filter.mpr ⟨hf, ?_⟩, hq⟩
    simp [hq, hqp]

theorem mem_filePaths_foldl {q : Str} (dest : Str) :
    ∀ (ms : List (Str × Content)) (fs : SimFS), q ∈ filePaths fs →
      q ∈ filePaths (ms.foldl (fun acc m => acc.setFile (pathJoin dest m.1) m.2) fs) := by
  intro ms
  induction ms with
  | nil => intro fs h; exact h
  | cons m ms ih =>
    intro fs h
    exact ih _ (mem_filePaths_setFile h)

theorem lookup_setFile_self (fs : SimFS) (p : Str) (c : Content) :
    (fs.setFile p c).lookup p = some c := by
  rw [SimFS.lookup, SimFS.setFile]
  rw [List.find?_cons_of_pos _ (by simp)]
  rfl

theorem mem_filePaths_of_lookup {fs : SimFS} {p : Str} {c : Content}
    (h : fs.lookup p = some c) : p ∈ filePaths fs := by
  rw [SimFS.lookup] at h
  cases hf : fs.files.find? (fun f => f.1 == p) with
  | none => rw [hf] at h; simp at h
  | some f =>
    have hbeq := List.find?_some hf
    have hmemf := List.mem_of_find?_eq_some hf
    have hfp : f.1 = p := by simpa using hbeq
    exact hfp ▸ List.mem_map.mpr ⟨f, hmemf, rfl⟩

theorem opMkdir_files (env : Env) (fs : SimFS) (p : Str) :
    (opMkdir env fs p).1.files = fs.files := by
  rw [opMkdir]
  split
  · rfl
  · split
    · rfl
    · rfl

theorem opMkdir_err {env : Env} {fs : SimFS} {p : Str} {fs' : SimFS} {e : PyError}
    (h : opMkdir env fs p = (fs', .error e)) : e = PyError.osErr := by
  rw [opMkdir] at h
  split at h
  · injection h with h1 h2; injection h2 with h3; exact h3.symm
  · split at h
    · injection h with h1 h2; injection h2 with h3; exact h3.symm
    · injection h with h1 h2; exact Except.noConfusion h2

theorem opTarOpen_fst (env : Env) (fs : SimFS) (p : Str) :
    (opTarOpen env fs p).1 = fs := by
  rw [opTarOpen]
  split
  · rfl
  · split
    · rfl
    · split
      · rfl
      · rfl

theorem opGzOpen_fst (env : Env) (fs : SimFS) (p : Str) :
    (opGzOpen env fs p).1 = fs := by
  rw [opGzOpen]
  split
  · rfl
  · split
    · rfl
    · rfl

theorem opGzOpen_err {env : Env} {fs : SimFS} {p : Str} {fs' : SimFS} {e : PyError}
    (h : opGzOpen env fs p = (fs', .error e)) : e = PyError.osErr := by
  rw [opGzOpen] at h
  split at h
  · injection h with h1 h2; injection h2 with h3; exact h3.symm
  · split at h
    · injection h with h1 h2; injection h2 with h3; exact h3.symm
    · injection h with h1 h2; exact Except.noConfusion h2

theorem opExtractAll_presence {env : Env} {fs fs3 : SimFS} {src dest : Str}
    {ms : List (Str × Content)} {r : Except PyError Unit}
    (h : opExtractAll env fs src dest ms = (fs3, r)) {q : Str}
    (hq : q ∈ filePaths fs) : q ∈ filePaths fs3 := by
  rw [opExtractAll] at h
  split at h
  · injection h with h1 h2; exact h1 ▸ hq
  · injection h with h1 h2; exact h1 ▸ mem_filePaths_foldl dest ms fs hq

theorem opExtractAll_err {env : Env} {fs fs3 : SimFS} {src dest : Str}
    {ms : List (Str × Content)} {e : PyError}
    (h : opExtractAll env fs src dest ms = (fs3, .error e)) : e = PyError.osErr := by
  rw [opExtractAll] at h
  split at h
  · injection h with h1 h2; injection h2 with h3; exact h3.symm
  · injection h with h1 h2; exact Except.noConfusion h2

theorem opWriteOpen_presence {env : Env} {fs fs' : SimFS} {p : Str}
    {r : Except PyError Unit} (h : opWriteOpen env fs p = (fs', r)) {q : Str}
    (hq : q ∈ filePaths fs) : q ∈ filePaths fs' := by
  rw [opWriteOpen] at h
  split at h
  · injection h with h1 h2; exact h1 ▸ hq
  · injection h with h1 h2; exact h1 ▸ mem_filePaths_setFile hq

theorem opWriteOpen_err {env : Env} {fs fs' : SimFS} {p : Str} {e : PyError}
    (h : opWriteOpen env fs p = (fs', .error e)) : e = PyError.osErr := by
  rw [opWriteOpen] at h
  split at h
  · injection h with h1 h2; injection h2 with h3; exact h3.symm
  · injection h with h1 h2; exact Except.noConfusion h2

theorem opGzReadWrite_gz (env : Env) (fs : SimFS) (out : Str) (c : Content) :
    opGzReadWrite env fs out (.gzData c)
      = if env.readWriteFail out then (fs, .error .osErr)
        else (fs.setFile out c, .ok ()) := rfl

theorem opGzReadWrite_plain (env : Env) (fs : SimFS) (out : Str) :
    opGzReadWrite env fs out .plain
      = if env.readWriteFail out then (fs, .error .osErr)
        else (fs, .error .osErr) := rfl

theorem opGzReadWrite_tar (env : Env) (fs : SimFS) (out : Str)
    (ms : List (Str × Content)) :
    opGzReadWrite env fs out (.tarData ms)
      = if env.readWriteFail out then (fs, .error .osErr)
        else (fs, .error .osErr) := rfl

theorem opGzReadWrite_trunc (env : Env) (fs : SimFS) (out : Str) :
    opGzReadWrite env fs out .gzTruncated
      = if env.readWriteFail out then (fs, .error .osErr)
        else (fs, .error .eofErr) := rfl

theorem opGzReadWrite_corrupt (env : Env) (fs : SimFS) (out : Str) :
    opGzReadWrite env fs out .gzCorrupt
      = if env.readWriteFail out then (fs, .error .osErr)
        else (fs, .error .zlibErr) := rfl

theorem opGzReadWrite_presence {env : Env} {fs fs' : SimFS} {out : Str} {raw : Content}
    {r : Except PyError Unit} (h : opGzReadWrite env fs out raw = (fs', r)) {q : Str}
    (hq : q ∈ filePaths fs) : q ∈ filePaths fs' := by
  cases raw with
  | gzData c =>
    rw [opGzReadWrite_gz] at h
    split at h
    · injection h with h1 h2; exact h1 ▸ hq
    · injection h with h1 h2; exact h1 ▸ mem_filePaths_setFile hq
  | plain =>
    rw [opGzReadWrite_plain] at h
    split at h
    · injection h with h1 h2; exact h1 ▸ hq
    · injection h with h1 h2; exact h1 ▸ hq
  | tarData ms =>
    rw [opGzReadWrite_tar] at h
    split at h
    · injection h with h1 h2; exact h1 ▸ hq
    · injection h with h1 h2; exact h1 ▸ hq
  | gzTruncated =>
    rw [opGzReadWrite_trunc] at h
    split at h
    · injection h with h1 h2; exact h1 ▸ hq
    · injection h with h1 h2; exact h1 ▸ hq
  | gzCorrupt =>
    rw [opGzReadWrite_corrupt] at h
    split at h
    · injection h with h1 h2; exact h1 ▸ hq
    · injection h with h1 h2; exact h1 ▸ hq

theorem opUnlink_err_fs {env : Env} {fs fs' : SimFS} {p : Str} {e : PyError}
    (h : opUnlink env fs p = (fs', .error e)) : fs' = fs ∧ e = PyError.osErr := by
  rw [opUnlink] at h
  split at h
  · injection h with h1 h2; injection h2 with h3; exact ⟨h1.symm, h3.symm⟩
  · split at h
    · injection h with h1 h2; exact Except.noConfusion h2
    · injection h with h1 h2; injection h2 with h3; exact ⟨h1.symm, h3.symm⟩

theorem opUnlink_ok_removes {env : Env} {fs fs' : SimFS} {p : Str} {u : Unit}
    (h : opUnlink env fs p = (fs', .ok u)) : p ∉ filePaths fs' := by
  rw [opUnlink] at h
  split at h
  · injection h with h1 h2; exact Except.noConfusion h2
  · split at h
    · injection h with h1 h2
      rw [← h1]
      intro hm
      rw [filePaths] at hm
      rcases List.mem_map.mp hm with ⟨f, hf, hfq⟩
      have hmf := List.mem_filter.mp hf
      have hne : (f.1 == p) = false := by
        have := hmf.2
        simpa using this
      rw [hfq] at hne
      simp at hne
    · injection h with h1 h2; exact Except.noConfusion h2

theorem mkdirStep_filePaths (env : Env) (fs : SimFS) (filepath dest0 : Str) (cd : Bool) :
    filePaths (mkdirStep env fs filepath dest0 cd).1 = filePaths fs := by
  cases cd with
  | false => rfl
  | true =>
    rw [mkdirStep]
    rw [if_pos rfl]
    cases hm : opMkdir env fs (uniqueDest fs filepath dest0) with
    | mk fsa ra =>
      have hfl : fsa.files = fs.files := by
        have := opMkdir_files env fs (uniqueDest fs filepath dest0)
        rw [hm] at this
        exact this
      cases ra with
      | ok u => rw [filePaths, hfl]; rfl
      | error e => rw [filePaths, hfl]; rfl

theorem mkdirStep_err {env : Env} {fs : SimFS} {filepath dest0 : Str} {cd : Bool}
    {fs1 : SimFS} {e : PyError}
    (h : mkdirStep env fs filepath dest0 cd = (fs1, .error e)) : e = PyError.osErr := by
  rw [mkdirStep] at h
  split at h
  · cases hm : opMkdir env fs (uniqueDest fs filepath dest0) with
    | mk fsa ra =>
      rw [hm] at h
      try dsimp only at h
      cases ra with
      | ok u => injection h with h1 h2; exact Except.noConfusion h2
      | error e1 =>
        injection h with h1 h2
        injection h2 with h3
        exact h3 ▸ opMkdir_err hm
  · injection h with h1 h2; exact Except.noConfusion h2

theorem deleteStep_err {env : Env} {fs : SimFS} {filepath dest : Str} {del : Bool}
    {fs1 : SimFS} {e : PyError}
    (h : deleteStep env fs filepath dest del = (fs1, .error e)) :
    fs1 = fs ∧ e = PyError.osErr := by
  rw [deleteStep] at h
  split at h
  · cases hu : opUnlink env fs filepath with
    | mk fsa ra =>
      rw [hu] at h
      cases ra with
      | ok u => injection h with h1 h2; exact Except.noConfusion h2
      | error e1 =>
        injection h with h1 h2
        injection h2 with h3
        obtain ⟨hfs, he⟩ := opUnlink_err_fs hu
        exact ⟨h1 ▸ hfs, h3 ▸ he⟩
  · injection h with h1 h2; exact Except.noConfusion h2

theorem deleteStep_ok_removes {env : Env} {fs : SimFS} {filepath dest : Str}
    {fs1 : SimFS} {d : Str}
    (h : deleteStep env fs filepath dest true = (fs1, .ok d)) :
    filepath ∉ filePaths fs1 := by
  rw [deleteStep] at h
  rw [if_pos rfl] at h
  cases hu : opUnlink env fs filepath with
  | mk fsa ra =>
    rw [hu] at h
    cases ra with
    | ok u =>
      injection h with h1 h2
      exact h1 ▸ opUnlink_ok_removes hu
    | error e1 => injection h with h1 h2; exact Except.noConfusion h2

theorem mkdirStep_presence {env : Env} {fs : SimFS} {filepath dest0 : Str} {cd : Bool}
    {fs1 : SimFS} {r : Except PyError Str}
    (h : mkdirStep env fs filepath dest0 cd = (fs1, r)) {q : Str}
    (hq : q ∈ filePaths fs) : q ∈ filePaths fs1 := by
  have heq := mkdirStep_filePaths env fs filepath dest0 cd
  rw [h] at heq
  dsimp only at heq
  rw [heq]
  exact hq

theorem opTarOpen_presence {env : Env} {fs : SimFS} {p : Str} {fs' : SimFS}
    {r : Except PyError (List (Str × Content))}
    (h : opTarOpen env fs p = (fs', r)) {q : Str}
    (hq : q ∈ filePaths fs) : q ∈ filePaths fs' := by
  have heq := opTarOpen_fst env fs p
  rw [h] at heq
  dsimp only at heq
  rw [heq]
  exact hq

theorem opGzOpen_presence {env : Env} {fs : SimFS} {p : Str} {fs' : SimFS}
    {r : Except PyError Content} (h : opGzOpen env fs p = (fs', r)) {q : Str}
    (hq : q ∈ filePaths fs) : q ∈ filePaths fs' := by
  have heq := opGzOpen_fst env fs p
  rw [h] at heq
  dsimp only at heq
  rw [heq]
  exact hq

theorem tarTry_err_preserves {env : Env} {fs : SimFS} {fp : Str} {et : Option Str}
    {cd del : Bool} {fs1 : SimFS} {e : PyError}
    (h : tarTry env fs fp et cd del = (fs1, .error e)) {q : Str}
    (hq : q ∈ filePaths fs) : q ∈ filePaths fs1 := by
  rw [tarTry] at h
  cases hm : mkdirStep env fs fp (destDefault fp et) cd with
  | mk fsa ra =>
    have hqa : q ∈ filePaths fsa := mkdirStep_presence hm hq
    rw [hm] at h
    try dsimp only at h
    cases ra with
    | error e1 =>
      injection h with h1 h2
      exact h1 ▸ hqa
    | ok dest =>
      try dsimp only at h
      cases ho : opTarOpen env fsa fp with
      | mk fsb rb =>
        have hqb : q ∈ filePaths fsb := opTarOpen_presence ho hqa
        rw [ho] at h
        try dsimp only at h
        cases rb with
        | error e1 => injection h with h1 h2; exact h1 ▸ hqb
        | ok ms =>
          try dsimp only at h
          cases hx : opExtractAll env fsb fp dest ms with
          | mk fsc rc =>
            have hqc : q ∈ filePaths fsc := opExtractAll_presence hx hqb
            rw [hx] at h
            try dsimp only at h
            cases rc with
            | error e1 => injection h with h1 h2; exact h1 ▸ hqc
            | ok u =>
              try dsimp only at h
              obtain ⟨hfs, _⟩ := deleteStep_err h
              exact hfs ▸ hqc

theorem tarTry_ok_removes {env : Env} {fs : SimFS} {fp : Str} {et : Option Str}
    {cd : Bool} {fs1 : SimFS} {d : Str}
    (h : tarTry env fs fp et cd true = (fs1, .ok d)) : fp ∉ filePaths fs1 := by
  rw [tarTry] at h
  cases hm : mkdirStep env fs fp (destDefault fp et) cd with
  | mk fsa ra =>
    rw [hm] at h
    try dsimp only at h
    cases ra with
    | error e1 => injection h with h1 h2; exact Except.noConfusion h2
    | ok dest =>
      try dsimp only at h
      cases ho : opTarOpen env fsa fp with
      | mk fsb rb =>
        rw [ho] at h
        try dsimp only at h
        cases rb with
        | error e1 => injection h with h1 h2; exact Except.noConfusion h2
        | ok ms =>
          try dsimp only at h
          cases hx : opExtractAll env fsb fp dest ms with
          | mk fsc rc =>
            rw [hx] at h
            try dsimp only at h
            cases rc with
            | error e1 => injection h with h1 h2; exact Except.noConfusion h2
            | ok u => exact deleteStep_ok_removes h

theorem gzTry_err_preserves {env : Env} {fs : SimFS} {fp : Str} {et : Option Str}
    {cd del : Bool} {fs1 : SimFS} {e : PyError}
    (h : gzTry env fs fp et cd del = (fs1, .error e)) {q : Str}
    (hq : q ∈ filePaths fs) : q ∈ filePaths fs1 := by
  rw [gzTry] at h
  cases hm : mkdirStep env fs fp (destDefault fp et) cd with
  | mk fsa ra =>
    have hqa : q ∈ filePaths fsa := mkdirStep_presence hm hq
    rw [hm] at h
    try dsimp only at h
    cases ra with
    | error e1 =>
      injection h with h1 h2
      exact h1 ▸ hqa
    | ok dest =>
      try dsimp only at h
      cases ho : opGzOpen env fsa fp with
      | mk fsb rb =>
        have hqb : q ∈ filePaths fsb := opGzOpen_presence ho hqa
        rw [ho] at h
        try dsimp only at h
        cases rb with
        | error e1 => injection h with h1 h2; exact h1 ▸ hqb
        | ok raw =>
          try dsimp only at h
          cases hw : opWriteOpen env fsb (gzOutPath dest fp) with
          | mk fsc rc =>
            have hqc : q ∈ filePaths fsc := opWriteOpen_presence hw hqb
            rw [hw] at h
            try dsimp only at h
            cases rc with
            | error e1 => injection h with h1 h2; exact h1 ▸ hqc
            | ok u =>
              try dsimp only at h
              cases hr : opGzReadWrite env fsc (gzOutPath dest fp) raw with
              | mk fsd rd =>
                have hqd : q ∈ filePaths fsd := opGzReadWrite_presence hr hqc
                rw [hr] at h
                try dsimp only at h
                cases rd with
                | error e1 => injection h with h1 h2; exact h1 ▸ hqd
                | ok u2 =>
                  try dsimp only at h
                  obtain ⟨hfs, _⟩ := deleteStep_err h
                  exact hfs ▸ hqd

theorem gzTry_ok_removes {env : Env} {fs : SimFS} {fp : Str} {et : Option Str}
    {cd : Bool} {fs1 : SimFS} {d : Str}
    (h : gzTry env fs fp et cd true = (fs1, .ok d)) : fp ∉ filePaths fs1 := by
  rw [gzTry] at h
  cases hm : mkdirStep env fs fp (destDefault fp et) cd with
  | mk fsa ra =>
    rw [hm] at h
    try dsimp only at h
    cases ra with
    | error e1 => injection h with h1 h2; exact Except.noConfusion h2
    | ok dest =>
      try dsimp only at h
      cases ho : opGzOpen env fsa fp with
      | mk fsb rb =>
        rw [ho] at h
        try dsimp only at h
        cases rb with
        | error e1 => injection h with h1 h2; exact Except.noConfusion h2
        | ok raw =>
          try dsimp only at h
          cases hw : opWriteOpen env fsb (gzOutPath dest fp) with
          | mk fsc rc =>
            rw [hw] at h
            try dsimp only at h
            cases rc with
            | error e1 => injection h with h1 h2; exact Except.noConfusion h2
            | ok u =>
              try dsimp only at h
              cases hr : opGzReadWrite env fsc (gzOutPath dest fp) raw with
              | mk fsd rd =>
                rw [hr] at h
                try dsimp only at h
                cases rd with
                | error e1 => injection h with h1 h2; exact Except.noConfusion h2
                | ok u2 => exact deleteStep_ok_removes h

theorem lookup_filter_ne {p q : Str} {c : Content} :
    ∀ (files : List (Str × Content)) (dirs : List Str),
      SimFS.lookup ⟨files, dirs⟩ q = some c → q ≠ p →
      SimFS.lookup ⟨files.filter (fun f => ! (f.1 == p)), dirs⟩ q = some c := by
  intro files
  induction files with
  | nil =>
    intro dirs h _
    rw [SimFS.lookup] at h
    simp at h
  | cons f rest ih =>
    intro dirs h hne
    rw [SimFS.lookup] at h
    try dsimp only at h
    rw [List.find?_cons] at h
    try dsimp only at h
    rw [SimFS.lookup]
    try dsimp only
    rw [List.filter_cons]
    cases hfq : f.1 == q with
    | true =>
      rw [hfq] at h
      try dsimp only at h
      have hf1 : f.1 = q := by simpa using hfq
      have hkeep : (! (f.1 == p)) = true := by
        rw [hf1]
        simp [hne]
      rw [hkeep, if_pos rfl, List.find?_cons]
      try dsimp only
      rw [hfq]
      try dsimp only
      exact h
    | false =>
      rw [hfq] at h
      try dsimp only at h
      have hres := ih dirs (by rw [SimFS.lookup]; exact h) hne
      rw [SimFS.lookup] at hres
      try dsimp only at hres
      cases hfp : (! (f.1 == p)) with
      | true =>
        rw [if_pos rfl, List.find?_cons]
        try dsimp only
        rw [hfq]
        try dsimp only
        exact hres
      | false =>
        rw [if_neg (by simp)]
        exact hres


/-- Claim C1 (amended).  As stated over EVERY directory path the claim is
false (see `C1_counterexample`): the namer rebuilds colliding candidates
from the `pathlib` stem, which drops a final extension, and matches its
regex on the full path string, which can fire on embedded space-digit
groups.  For candidate paths of the shape the claim intends — absolute,
normalized, final component without a dot, no space-followed-by-digit
anywhere in the string (and newline-free, where the embedded regex agrees
with Python's) — the claim holds: if `P`, `P 1`, …, `P k` exist and
`P (k+1)` does not, the namer returns `P (k+1)`; and a path that does not
exist is returned unchanged (this half holds for every path). -/
theorem C1_uniqueness :
    (∀ (ex : List Str) (pre nm : Str) (k : Nat),
      AbsParent pre → nm ≠ [] → ('/' : Char) ∉ nm → ('.' : Char) ∉ nm →
      spaceDigitSplit (pre ++ '/' :: nm) = none →
      ('\n' : Char) ∉ pre ++ '/' :: nm →
      pre ++ '/' :: nm ∈ ex →
      (∀ i, 1 ≤ i → i ≤ k → (pre ++ '/' :: nm) ++ ' ' :: natChars i ∈ ex) →
      (pre ++ '/' :: nm) ++ ' ' :: natChars (k + 1) ∉ ex →
      Extract.make_unique_directory_name ex (pre ++ '/' :: nm)
        = (pre ++ '/' :: nm) ++ ' ' :: natChars (k + 1))
    ∧ (∀ (ex : List Str) (P : Str), P ∉ ex →
        Extract.make_unique_directory_name ex P = P) := by
  constructor
  · intro ex pre nm k hpre hnm1 hnm2 hnm3 hsd _hnl hmem0 hmem hnot
    have hk : k + 1 ≤ ex.length := probe_count hmem0 hmem
    rw [Extract.make_unique_directory_name]
    have hF : ex.length + 3 = (ex.length + 2) + 1 := rfl
    rw [hF, muGo_probe_start (ex.length + 2) hpre hnm1 hnm2 hnm3 hsd hmem0]
    have hsplit : ex.length + 2 = (ex.length + 2 - k) + k := by omega
    rw [hsplit,
      muGo_probe_chain hpre hsd hmem k 1 (ex.length + 2 - k) (le_refl 1) (by omega)]
    exact muGo_end hnot _
  · intro ex P h
    exact muGo_end h _

/-- Claim C1, counterexample to the universally quantified claim: with
only `"/a/b.c"` existing (the `k = 0` case), the claim demands the result
`"/a/b.c 1"`, but the namer rebuilds the probe from the stem and returns
`"/a/b 1"`. -/
theorem C1_counterexample :
    Extract.make_unique_directory_name (sAbc :: []) sAbc = sAb1 ∧ sAb1 ≠ sAbc1 :=
  ⟨by decide, by decide⟩

/-- Witness for C1: `/home/test` and `/home/test 1` exist (`k = 1`), so
the namer yields `/home/test 2`; and a non-existing path is unchanged. -/
theorem C1_uniqueness_witness :
    Extract.make_unique_directory_name exC1 (sHome ++ '/' :: sTest)
      = (sHome ++ '/' :: sTest) ++ ' ' :: natChars 2
    ∧ Extract.make_unique_directory_name [] sHomeTest = sHomeTest := by
  constructor
  · refine C1_uniqueness.1 exC1 sHome sTest 1 (by decide) (by decide) (by decide)
      (by decide) (by decide) (by decide) (by decide) ?_ (by decide)
    intro i h1 h2
    interval_cases i
    decide
  · exact C1_uniqueness.2 [] sHomeTest (by decide)

/-- Claim C5: a digit group NOT preceded by a space is never treated as a
collision counter.  For an existing path (clean shape as in C1, except
that the final component may end in digits) whose string has no
space-followed-by-digit occurrence, the namer appends `" 1"` to the stem:
`"archive2"` becomes `"archive2 1"`, never `"archive3"`. -/
theorem C5_no_space_no_increment (ex : List Str) (P : Str)
    (hshape : (P ≠ [] ∧ P ≠ ['.'] ∧ ('/' : Char) ∉ P) ∨
      (∃ pre nm, P = pre ++ '/' :: nm ∧ AbsParent pre ∧ nm ≠ [] ∧ ('/' : Char) ∉ nm))
    (hdot : ('.' : Char) ∉ posixName P)
    (hlast : ∃ c, P.getLast? = some c ∧ c.isDigit = true)
    (hsd : spaceDigitSplit P = none)
    (_hnl : ('\n' : Char) ∉ P)
    (hmem : P ∈ ex) (hnot : P ++ ' ' :: natChars 1 ∉ ex) :
    Extract.make_unique_directory_name ex P = P ++ ' ' :: natChars 1 := by
  rw [Extract.make_unique_directory_name]
  have hF : ex.length + 3 = (ex.length + 2) + 1 := rfl
  rw [hF]
  rcases hshape with ⟨h1, h2, h3⟩ | ⟨pre, nm, hP, hpre, hnm1, hnm2⟩
  · rw [muGo_step_nomatch (ex.length + 2) hmem hsd]
    have hname : posixName P = P := posixName_no_slash h3
    have hstem : posixStem P = P := by
      rw [posixStem, hname, stemOfName_no_dot (hname ▸ hdot)]
    have hpar : posixParent P = ['.'] := posixParent_no_slash h3
    rw [hstem, hpar]
    have hjoin : pathJoin ['.'] (P ++ ' ' :: natChars 1) = P ++ ' ' :: natChars 1 := by
      rw [pathJoin, if_neg (head_append_not_slash _ h1 h3), if_pos rfl]
    rw [hjoin]
    exact muGo_end hnot _
  · subst hP
    have hdotnm : ('.' : Char) ∉ nm := by
      rw [posixName_append _ _ hnm2] at hdot
      exact hdot
    rw [muGo_probe_start (ex.length + 2) hpre hnm1 hnm2 hdotnm hsd hmem]
    exact muGo_end hnot _

/-- Witness for C5: `"archive2"` existing produces `"archive2 1"`. -/
theorem C5_witness :
    Extract.make_unique_directory_name (sArch :: []) sArch = sArch ++ ' ' :: natChars 1
    ∧ sArch ++ ' ' :: natChars 1 = sArch1 := by
  constructor
  · refine C5_no_space_no_increment (sArch :: []) sArch (Or.inl (by decide)) (by decide)
      ⟨'2', by decide, by decide⟩ (by decide) (by decide) (by decide) (by decide)
  · decide

/-- Claim C8 (amended).  The regex does match the full path string, and
as stated the claim is false (see `C8_counterexample`): a space-digit
group in an ANCESTOR component anchors the match there and the returned
path rewrites everything from that ancestor on, dropping the final
component.  The amended claim: when no ancestor component contains a
space-followed-by-digit (and the path is absolute, normalized and
newline-free), every probe and the final answer keep all ancestor
directory names intact and rewrite only the final component. -/
theorem C8_prefix_preserved (ex : List Str) (pre nm : Str)
    (hpre : AbsParent pre) (hnm1 : nm ≠ []) (hnm2 : ('/' : Char) ∉ nm)
    (hpsd : spaceDigitSplit pre = none)
    (_hnl : ('\n' : Char) ∉ pre ++ '/' :: nm) :
    ∃ nm', nm' ≠ [] ∧ ('/' : Char) ∉ nm' ∧
      Extract.make_unique_directory_name ex (pre ++ '/' :: nm) = pre ++ '/' :: nm'
      ∧ posixParent (pre ++ '/' :: nm') = posixParent (pre ++ '/' :: nm) := by
  obtain ⟨nm', h1, h2, h3⟩ :=
    muGo_keeps_prefix hpre hpsd (ex.length + 3) ex nm hnm1 hnm2
  exact ⟨nm', h1, h2, h3,
    by rw [posixParent_append _ _ h2, posixParent_append _ _ hnm2]⟩

/-- Claim C8, counterexample to the claim as stated: for existing
candidate `"/a 1/b"` the regex matches the ancestor `"a 1"`, and the
namer returns `"/a 2"` — a path with a different parent, not a change
confined to the final component. -/
theorem C8_counterexample :
    Extract.make_unique_directory_name (sA1b :: []) sA1b = sA2
    ∧ posixParent sA2 ≠ posixParent sA1b :=
  ⟨by decide, by decide⟩

/-- Witness for C8: a clean absolute candidate keeps its parent. -/
theorem C8_witness :
    ∃ nm', nm' ≠ [] ∧ ('/' : Char) ∉ nm' ∧
      Extract.make_unique_directory_name (sHomeTest :: []) (sHome ++ '/' :: sTest)
        = sHome ++ '/' :: nm'
      ∧ posixParent (sHome ++ '/' :: nm') = posixParent (sHome ++ '/' :: sTest) :=
  C8_prefix_preserved (sHomeTest :: []) sHome sTest (by decide) (by decide)
    (by decide) (by decide) (by decide)

/-- Claim C10: when the existing candidate produces no regex match, the
first probe is built from the `pathlib` stem, which drops the final
extension of the last component: an existing `…/x.tar` probes `…/x 1`
(and returns it when free), not `…/x.tar 1`. -/
theorem C10_stem_probe (ex : List Str) (pre st suf : Str)
    (hpre : AbsParent pre) (hst : st ≠ []) (hsuf : suf ≠ [])
    (hsufd : ('.' : Char) ∉ suf)
    (hslash : ('/' : Char) ∉ st ++ '.' :: suf)
    (hsd : spaceDigitSplit (pre ++ '/' :: (st ++ '.' :: suf)) = none)
    (_hnl : ('\n' : Char) ∉ pre ++ '/' :: (st ++ '.' :: suf))
    (hmem : pre ++ '/' :: (st ++ '.' :: suf) ∈ ex)
    (hnot : pre ++ '/' :: (st ++ ' ' :: natChars 1) ∉ ex) :
    Extract.make_unique_directory_name ex (pre ++ '/' :: (st ++ '.' :: suf))
      = pre ++ '/' :: (st ++ ' ' :: natChars 1)
    ∧ pre ++ '/' :: (st ++ ' ' :: natChars 1)
        ≠ (pre ++ '/' :: (st ++ '.' :: suf)) ++ ' ' :: natChars 1 := by
  constructor
  · rw [Extract.make_unique_directory_name]
    have hF : ex.length + 3 = (ex.length + 2) + 1 := rfl
    rw [hF, muGo_step_nomatch (ex.length + 2) hmem hsd]
    have hstem : posixStem (pre ++ '/' :: (st ++ '.' :: suf)) = st := by
      rw [posixStem, posixName_append _ _ hslash, stemOfName_dot st suf hst hsuf hsufd]
    rw [hstem]
    have hs2 : ('/' : Char) ∉ st := fun hm => hslash (List.mem_append.mpr (Or.inl hm))
    rw [pathJoin_parent_append _ _ hpre hslash (head_append_not_slash _ hst hs2)]
    exact muGo_end hnot _
  · intro he
    have hlen := congrArg List.length he
    have hl : 0 < suf.length := List.length_pos.mpr hsuf
    simp [List.length_append] at hlen
    omega

/-- Witness for C10: existing `"/d/x.tar"` probes and returns `"/d/x 1"`,
which differs from `"/d/x.tar 1"`. -/
theorem C10_witness :
    Extract.make_unique_directory_name (sDxTar :: []) (sD ++ '/' :: (sX ++ '.' :: sTarSuf))
      = sD ++ '/' :: (sX ++ ' ' :: natChars 1)
    ∧ sD ++ '/' :: (sX ++ ' ' :: natChars 1)
        ≠ (sD ++ '/' :: (sX ++ '.' :: sTarSuf)) ++ ' ' :: natChars 1 :=
  C10_stem_probe (sDxTar :: []) sD sX sTarSuf (by decide) (by decide) (by decide)
    (by decide) (by decide) (by decide) (by decide) (by decide) (by decide)

/-! ## Claims about the extractors, the walker and the dispatch -/

/-- Claim C2 (code-bug evidence).  The walker accepts `delete`,
`create_dir` and `gz_create_dir` flags, but the recursive call on each
extraction's destination is `Extract.walk_tree_and_extract(new_dir)` with
NO arguments, so every nested level runs with the Python defaults
`delete=True, create_dir=True, gz_create_dir=False` instead of the given
flags.  Concretely: walking `/r` (which holds `a.tar` containing `b.tar`)
with `delete=False` still extracts the nested `b.tar` with `delete=True`,
and `b.tar` is gone afterwards while `a.tar` survives. -/
theorem C2_flags_not_threaded :
    (Extract.walk_tree_and_extract envOk 3 fsNested sR false true false).2.1
      = Call.tarC sRATar true false :: Call.tarC sRABTar true true :: []
    ∧ sRATar ∈ filePaths (Extract.walk_tree_and_extract envOk 3 fsNested sR false true false).1
    ∧ sRABTar ∉ filePaths (Extract.walk_tree_and_extract envOk 3 fsNested sR false true false).1 :=
  ⟨by decide, by decide, by decide⟩

/-- Claim C3 (amended).  The handlers are `except OSError`, so exactly
the `OSError`-derived failures are caught: whenever the `try` body of
`Extract.tar` or `Extract.gz` fails, the call logs and returns `None` if
the exception is an `OSError` (all filesystem errors, and malformed gzip
data, since `gzip.BadGzipFile` subclasses `OSError`), and lets the
exception propagate unchanged — same exception, same filesystem state —
otherwise.  Consequently every exception that does escape either
extractor is a non-`OSError` one: `tarfile.ReadError` from a malformed
tar archive (see `C3_counterexample`), or `EOFError` / `zlib.error` from
truncated or corrupt gzip data, which escape `Extract.gz`. -/
theorem C3_error_policy :
    (∀ (env : Env) (fs : SimFS) (fp : Str) (et : Option Str) (cd del : Bool)
        (fs1 : SimFS) (e : PyError),
      tarTry env fs fp et cd del = (fs1, .error e) →
        Extract.tar env fs fp et cd del
          = if e.isOSError then (fs1, .ok none) else (fs1, .error e))
    ∧ (∀ (env : Env) (fs : SimFS) (fp : Str) (et : Option Str) (cd del : Bool)
        (fs1 : SimFS) (e : PyError),
      gzTry env fs fp et cd del = (fs1, .error e) →
        Extract.gz env fs fp et cd del
          = if e.isOSError then (fs1, .ok none) else (fs1, .error e))
    ∧ (∀ (env : Env) (fs : SimFS) (fp : Str) (et : Option Str) (cd del : Bool)
        (fs' : SimFS) (e : PyError),
      Extract.tar env fs fp et cd del = (fs', .error e) → e.isOSError = false)
    ∧ (∀ (env : Env) (fs : SimFS) (fp : Str) (et : Option Str) (cd del : Bool)
        (fs' : SimFS) (e : PyError),
      Extract.gz env fs fp et cd del = (fs', .error e) → e.isOSError = false) := by
  refine ⟨?_, ?_, ?_, ?_⟩
  · intro env fs fp et cd del fs1 e h
    rw [Extract.tar, h]
  · intro env fs fp et cd del fs1 e h
    rw [Extract.gz, h]
  · intro env fs fp et cd del fs' e h
    rw [Extract.tar] at h
    cases ht : tarTry env fs fp et cd del with
    | mk fsa ra =>
      rw [ht] at h
      try dsimp only at h
      cases ra with
      | ok d => injection h with h1 h2; exact Except.noConfusion h2
      | error e1 =>
        have h2 : (if e1.isOSError = true then (fsa, Except.ok none)
            else (fsa, Except.error e1)) = (fs', Except.error e) := h
        cases hb : PyError.isOSError e1 with
        | true =>
          rw [if_pos hb] at h2
          injection h2 with h3 h4
          exact Except.noConfusion h4
        | false =>
          rw [if_neg (by rw [hb]; exact Bool.false_ne_true)] at h2
          injection h2 with h3 h4
          injection h4 with h5
          exact h5 ▸ hb
  · intro env fs fp et cd del fs' e h
    rw [Extract.gz] at h
    cases ht : gzTry env fs fp et cd del with
    | mk fsa ra =>
      rw [ht] at h
      try dsimp only at h
      cases ra with
      | ok d => injection h with h1 h2; exact Except.noConfusion h2
      | error e1 =>
        have h2 : (if e1.isOSError = true then (fsa, Except.ok none)
            else (fsa, Except.error e1)) = (fs', Except.error e) := h
        cases hb : PyError.isOSError e1 with
        | true =>
          rw [if_pos hb] at h2
          injection h2 with h3 h4
          exact Except.noConfusion h4
        | false =>
          rw [if_neg (by rw [hb]; exact Bool.false_ne_true)] at h2
          injection h2 with h3 h4
          injection h4 with h5
          exact h5 ▸ hb

/-- Claim C3, counterexample to the claim as stated: on a `.tar` file
whose content is not a tar archive, `tarfile.open` raises
`tarfile.ReadError`, which `except OSError` does not catch — the
exception propagates to the caller instead of being logged-and-absent. -/
theorem C3_counterexample :
    Extract.tar envOk fsCorrupt sDxTar none true true
      = (fsCorruptAfter, .error PyError.tarReadErr) := rfl

/-- Witness for C3: the catch-vs-propagate rule applied at concrete runs
— an injected `extractall` `OSError` is swallowed by `Extract.tar`
(result `None`, no exception), a truncated gzip stream makes `Extract.gz`
raise `EOFError`, and both `tarfile.ReadError` and `EOFError` are
non-`OSError` escapes. -/
theorem C3_error_policy_witness :
    Extract.tar envExtractFail fsPlainTar sDxTar none true true = (fsAfterFail, .ok none)
    ∧ Extract.gz envOk fsGzTrunc sGzTruncFile none false true
        = (fsGzTruncAfter, .error PyError.eofErr)
    ∧ PyError.isOSError PyError.tarReadErr = false
    ∧ PyError.isOSError PyError.eofErr = false := by
  refine ⟨?_, ?_, ?_, ?_⟩
  · exact C3_error_policy.1 envExtractFail fsPlainTar sDxTar none true true
      fsAfterFail PyError.osErr rfl
  · exact C3_error_policy.2.1 envOk fsGzTrunc sGzTruncFile none false true
      fsGzTruncAfter PyError.eofErr rfl
  · exact C3_error_policy.2.2.1 envOk fsCorrupt sDxTar none true true
      fsCorruptAfter PyError.tarReadErr rfl
  · exact C3_error_policy.2.2.2 envOk fsGzTrunc sGzTruncFile none false true
      fsGzTruncAfter PyError.eofErr rfl

/-- Claim C4: with `delete=True`, for both extractors and every
environment, destination and flag choice — the source file is absent
after a successful call (the unlink is the last operation and nothing
fails after it), and still present after any failed call (every failure
raises before the unlink executes, or is the unlink itself failing, which
removes nothing). -/
theorem C4_deletion_ordering :
    (∀ (env : Env) (fs : SimFS) (fp : Str) (et : Option Str) (cd : Bool)
        (fs' : SimFS) (r : Except PyError (Option Str)),
      Extract.tar env fs fp et cd true = (fs', r) →
        (∀ d, r = .ok (some d) → fp ∉ filePaths fs')
        ∧ ((∀ d, r ≠ .ok (some d)) → fp ∈ filePaths fs → fp ∈ filePaths fs'))
    ∧ (∀ (env : Env) (fs : SimFS) (fp : Str) (et : Option Str) (cd : Bool)
        (fs' : SimFS) (r : Except PyError (Option Str)),
      Extract.gz env fs fp et cd true = (fs', r) →
        (∀ d, r = .ok (some d) → fp ∉ filePaths fs')
        ∧ ((∀ d, r ≠ .ok (some d)) → fp ∈ filePaths fs → fp ∈ filePaths fs')) := by
  constructor
  · intro env fs fp et cd fs' r h
    rw [Extract.tar] at h
    cases ht : tarTry env fs fp et cd true with
    | mk fsa ra =>
      rw [ht] at h
      try dsimp only at h
      cases ra with
      | ok d0 =>
        injection h with h1 h2
        constructor
        · intro d _
          exact h1 ▸ tarTry_ok_removes ht
        · intro hne _
          exact absurd (by rw [← h2]) (hne d0)
      | error e1 =>
        try dsimp only at h
        have hfs : fs' = fsa ∧ (∀ d, r ≠ .ok (some d)) := by
          by_cases hos : PyError.isOSError e1 = true
          · rw [if_pos hos] at h
            injection h with h1 h2
            refine ⟨h1.symm, fun d hd => ?_⟩
            rw [← h2] at hd
            injection hd with h3
            exact Option.noConfusion h3
          · rw [if_neg hos] at h
            injection h with h1 h2
            refine ⟨h1.symm, fun d hd => ?_⟩
            rw [← h2] at hd
            exact Except.noConfusion hd
        constructor
        · intro d hd
          exact absurd hd (hfs.2 d)
        · intro _ hmem
          rw [hfs.1]
          exact tarTry_err_preserves ht hmem
  · intro env fs fp et cd fs' r h
    rw [Extract.gz] at h
    cases ht : gzTry env fs fp et cd true with
    | mk fsa ra =>
      rw [ht] at h
      try dsimp only at h
      cases ra with
      | ok d0 =>
        injection h with h1 h2
        constructor
        · intro d _
          exact h1 ▸ gzTry_ok_removes ht
        · intro hne _
          exact absurd (by rw [← h2]) (hne d0)
      | error e1 =>
        try dsimp only at h
        have hfs : fs' = fsa ∧ (∀ d, r ≠ .ok (some d)) := by
          by_cases hos : PyError.isOSError e1 = true
          · rw [if_pos hos] at h
            injection h with h1 h2
            refine ⟨h1.symm, fun d hd => ?_⟩
            rw [← h2] at hd
            injection hd with h3
            exact Option.noConfusion h3
          · rw [if_neg hos] at h
            injection h with h1 h2
            refine ⟨h1.symm, fun d hd => ?_⟩
            rw [← h2] at hd
            exact Except.noConfusion hd
        constructor
        · intro d hd
          exact absurd hd (hfs.2 d)
        · intro _ hmem
          rw [hfs.1]
          exact gzTry_err_preserves ht hmem

/-- Witness for C4: a successful deleting run leaves the source absent;
a run whose `extractall` fails mid-extraction leaves the source present. -/
theorem C4_witness :
    sDxTar ∉ filePaths fsAfterTar ∧ sDxTar ∈ filePaths fsAfterFail := by
  constructor
  · exact (C4_deletion_ordering.1 envOk fsPlainTar sDxTar none true fsAfterTar
      (.ok (some sDXdir)) rfl).1 sDXdir rfl
  · exact (C4_deletion_ordering.1 envExtractFail fsPlainTar sDxTar none true fsAfterFail
      (.ok none) rfl).2
      (by
        intro d hd
        injection hd with h3
        exact Option.noConfusion h3)
      (by decide)

/-- Claim C6 (code-bug evidence).  The walker lowercases the suffix
before comparing (`extension.lower()`), so `.TAR` is recognized there;
but `Extract.extract` compares the RAW suffix against the lowercase
tuple, so `extract` on `x.TAR` hits the "Not valid file extension"
branch and is a no-op while the walker extracts the very same file. -/
theorem C6_case_sensitivity_bug :
    Extract.extract envOk 3 fsUpper sXTAR none true true true false
      = (fsUpper, [], none)
    ∧ (Extract.walk_tree_and_extract envOk 2 fsUpper sD true true false).2.1
        = Call.tarC sXTAR true true :: []
    ∧ strLower extTAR ∈ Extract.file_extensions
    ∧ extTAR ∉ Extract.file_extensions :=
  ⟨rfl, by decide, by decide, by decide⟩

/-- Claim C7: the walker's own loop runs over a single snapshot taken
before any extraction: walking `/r` (holding only `a.tar`, whose
extraction produces the nested `b.tar`) has snapshot `[a.tar]`, yet one
invocation extracts both archives — `b.tar` is reached through the
explicit recursive call on `a.tar`'s destination, not by re-scanning —
and with deletion on, the inner plain file is on disk and no archive
remains. -/
theorem C7_snapshot_semantics :
    snapshotFiles fsNested sR = sRATar :: []
    ∧ (Extract.walk_tree_and_extract envOk 3 fsNested sR true true false).2.1
        = Call.tarC sRATar true true :: Call.tarC sRABTar true true :: []
    ∧ sRABCTxt ∈ filePaths (Extract.walk_tree_and_extract envOk 3 fsNested sR true true false).1
    ∧ sRATar ∉ filePaths (Extract.walk_tree_and_extract envOk 3 fsNested sR true true false).1
    ∧ sRABTar ∉ filePaths (Extract.walk_tree_and_extract envOk 3 fsNested sR true true false).1
    ∧ (Extract.walk_tree_and_extract envOk 3 fsNested sR true true false).2.2 = none :=
  ⟨by decide, by decide, by decide, by decide, by decide, by decide⟩

/-- Claim C9: the unique-naming step applies only to the optional created
directory, never to the gzip output file.  When a regular file already
exists at `destination/<stem>`, `Extract.gz` (with `create_dir=False`)
opens that very path for writing, truncates and overwrites it, and
returns that same path — no fresh name is chosen and no failure occurs. -/
theorem C9_gz_overwrites (fs : SimFS) (fp dest : Str) (c oldc : Content) (del : Bool)
    (hgz : fs.lookup fp = some (.gzData c))
    (_hold : fs.lookup (gzOutPath dest fp) = some oldc)
    (hne : fp ≠ gzOutPath dest fp) :
    ∃ fs', Extract.gz envOk fs fp (some dest) false del
        = (fs', .ok (some (gzOutPath dest fp)))
      ∧ fs'.lookup (gzOutPath dest fp) = some c := by
  have hmem : fp ∈ filePaths fs := mem_filePaths_of_lookup hgz
  have hopen : opGzOpen envOk fs fp = (fs, .ok (.gzData c)) := by
    rw [opGzOpen, hgz]
    rfl
  have hstep : mkdirStep envOk fs fp (destDefault fp (some dest)) false
      = (fs, .ok dest) := rfl
  have hwrite : opWriteOpen envOk fs (gzOutPath dest fp)
      = (fs.setFile (gzOutPath dest fp) .plain, .ok ()) := rfl
  have hrw : opGzReadWrite envOk (fs.setFile (gzOutPath dest fp) .plain)
        (gzOutPath dest fp) (.gzData c)
      = ((fs.setFile (gzOutPath dest fp) .plain).setFile (gzOutPath dest fp) c,
         .ok ()) := rfl
  have htry : gzTry envOk fs fp (some dest) false del
      = deleteStep envOk
          ((fs.setFile (gzOutPath dest fp) .plain).setFile (gzOutPath dest fp) c)
          fp (gzOutPath dest fp) del := by
    rw [gzTry, hstep]
    try dsimp only
    rw [hopen]
    try dsimp only
    rw [hwrite]
    try dsimp only
    rw [hrw]
  have hlook3 : ((fs.setFile (gzOutPath dest fp) .plain).setFile
      (gzOutPath dest fp) c).lookup (gzOutPath dest fp) = some c :=
    lookup_setFile_self _ _ _
  cases del with
  | false =>
    refine ⟨(fs.setFile (gzOutPath dest fp) .plain).setFile (gzOutPath dest fp) c,
      ?_, hlook3⟩
    rw [Extract.gz, htry]
    rfl
  | true =>
    have hc : (filePaths ((fs.setFile (gzOutPath dest fp) .plain).setFile
        (gzOutPath dest fp) c)).contains fp = true :=
      List.elem_eq_true_of_mem (mem_filePaths_setFile (mem_filePaths_setFile hmem))
    have hun : opUnlink envOk
        ((fs.setFile (gzOutPath dest fp) .plain).setFile (gzOutPath dest fp) c) fp
        = (⟨((fs.setFile (gzOutPath dest fp) .plain).setFile
              (gzOutPath dest fp) c).files.filter (fun f => ! (f.1 == fp)),
            ((fs.setFile (gzOutPath dest fp) .plain).setFile
              (gzOutPath dest fp) c).dirs⟩, .ok ()) := by
      rw [opUnlink, if_pos hc]
      rfl
    refine ⟨⟨((fs.setFile (gzOutPath dest fp) .plain).setFile
        (gzOutPath dest fp) c).files.filter (fun f => ! (f.1 == fp)),
        ((fs.setFile (gzOutPath dest fp) .plain).setFile
          (gzOutPath dest fp) c).dirs⟩, ?_, ?_⟩
    · rw [Extract.gz, htry, deleteStep, if_pos rfl, hun]
    · exact lookup_filter_ne _ _ hlook3 (Ne.symm hne)

/-- Witness for C9: on the `fsGz` fixture, the output file
`/g/data.txt` already exists, holds stale content, and is overwritten
with the decompressed stream. -/
theorem C9_witness :
    ∃ fs', Extract.gz envOk fsGz sGzFile (some sG) false false
        = (fs', .ok (some (gzOutPath sG sGzFile)))
      ∧ fs'.lookup (gzOutPath sG sGzFile) = some .plain :=
  C9_gz_overwrites fsGz sGzFile sG .plain (.tarData []) false (by rfl) (by rfl)
    (by decide)
